import Mathlib

/-!
Verification development for the Trade Republic transaction-parser backend.

The Python source (FastAPI endpoint `parse_pdf` in `api/main.py`, the
`ResponseParser` in `parsers/response_parser.py`, the `DynamoDBService` in
`storage/dynamodb_service.py`, the aggregator in `utils/aggregator.py` and the
pydantic models in `models/transaction.py`) is shallowly embedded below.
External collaborators (the SHA-256 digest, the Bedrock LLM call, the wall
clock) are passed in as explicit parameters; the DynamoDB table is an explicit
value threaded through the functions that the source mutates.

Python `decimal.Decimal` values are modelled by the `Dec` structure: a signed
coefficient together with an exponent, exactly the representation used by the
`decimal` module.  `decOfString` models `Decimal(string)` on ordinary finite
decimal literals (optional sign, digits with at most one point, optional
exponent); the special values NaN and Infinity, embedded underscores and
surrounding whitespace accepted by Python are outside the model, as is the
negative zero sign bit, none of which occur in the data handled by this
program.  `decToString` follows the algorithm of `Decimal.__str__` in
CPython.  `decAdd` is exact coefficient addition at the smaller exponent,
which agrees with Python addition whenever the exact result stays within the
28 significant digits of the default context; the quantities appearing in
bank statements stay far below that bound.
-/

/-- Little-endian base-10 digits of `n`, with explicit fuel so that the
definition is structurally recursive and kernel-reducible. -/
def digitsAux (fuel : Nat) (n : Nat) : List Nat :=
  match fuel with
  | 0 => []
  | fuel + 1 => if n = 0 then [] else n % 10 :: digitsAux fuel (n / 10)

/-- Value of a little-endian digit list. -/
def valLE : List Nat → Nat
  | [] => 0
  | d :: ds => d + 10 * valLE ds

/-- Value of a big-endian digit list. -/
def valBE (l : List Nat) : Nat :=
  l.foldl (fun a d => 10 * a + d) 0

/-- Big-endian decimal digits of `n`; `[0]` for zero. -/
def natDigitsBE (n : Nat) : List Nat :=
  if n = 0 then [0] else (digitsAux n n).reverse

/-- Model of Python `decimal.Decimal`: `coeff * 10 ^ exp`, keeping the exact
representation (coefficient and exponent), as the `decimal` module does. -/
structure Dec where
  coeff : Int
  exp : Int
deriving DecidableEq, Repr

/-- Character list of the base-10 digits of a natural number. -/
def digitChars (n : Nat) : List Char := (natDigitsBE n).map Nat.digitChar

/-- Model of `Decimal.__str__` from CPython (module `_pydecimal`): compute
`leftdigits` and the dot position, then assemble integer part, fractional
part and exponent part. -/
def decToChars (d : Dec) : List Char :=
  let ds := natDigitsBE d.coeff.natAbs
  let len : Int := (ds.length : Int)
  let leftdigits : Int := d.exp + len
  let dotplace : Int := if d.exp ≤ 0 ∧ -6 < leftdigits then leftdigits else 1
  let intpart : List Char :=
    if dotplace ≤ 0 then ['0']
    else if len ≤ dotplace then
      (ds ++ List.replicate (dotplace - len).toNat 0).map Nat.digitChar
    else (ds.take dotplace.toNat).map Nat.digitChar
  let fracpart : List Char :=
    if dotplace ≤ 0 then
      '.' :: (List.replicate (-dotplace).toNat '0' ++ ds.map Nat.digitChar)
    else if len ≤ dotplace then []
    else '.' :: (ds.drop dotplace.toNat).map Nat.digitChar
  let exppart : List Char :=
    if leftdigits = dotplace then []
    else 'E' :: (if leftdigits - dotplace < 0 then '-' else '+') ::
      digitChars (leftdigits - dotplace).natAbs
  (if d.coeff < 0 then ['-'] else []) ++ intpart ++ fracpart ++ exppart

/-- Model of `str(Decimal)`. -/
def decToString (d : Dec) : String := String.mk (decToChars d)

/-- Decode one ASCII digit character. -/
def charDigit? (c : Char) : Option Nat :=
  if 48 ≤ c.toNat ∧ c.toNat ≤ 57 then some (c.toNat - 48) else none

/-- Decode a character list consisting solely of digits. -/
def readDigits? (l : List Char) : Option (List Nat) := l.mapM charDigit?

/-- Split at the first character satisfying `p`: the prefix before it and,
when found, the remainder after it (the Python `find` plus slicing idiom). -/
def splitAtFirst (p : Char → Bool) : List Char → List Char × Option (List Char)
  | [] => ([], none)
  | c :: t =>
    if p c then ([], some t)
    else
      let r := splitAtFirst p t
      (c :: r.1, r.2)

/-- Strip one optional leading sign. -/
def parseSign (l : List Char) : Int × List Char :=
  match l with
  | [] => (1, [])
  | c :: t => if c = '-' then (-1, t) else if c = '+' then (1, t) else (1, c :: t)

/-- Parse the exponent field of a decimal literal: optional sign then at
least one digit. -/
def parseExpPart (l : List Char) : Option Int :=
  let st := parseSign l
  match readDigits? st.2 with
  | some ds => if ds = [] then none else some (st.1 * (valBE ds : Int))
  | none => none

/-- Parse the unsigned mantissa of a decimal literal: digits with at most one
point and at least one digit overall; returns the coefficient value and the
number of fractional digits. -/
def parseMantissa (l : List Char) : Option (Nat × Nat) :=
  let sp := splitAtFirst (fun c => c == '.') l
  match sp.2 with
  | none =>
    match readDigits? sp.1 with
    | some ds => if ds = [] then none else some (valBE ds, 0)
    | none => none
  | some fp =>
    match readDigits? sp.1, readDigits? fp with
    | some i, some f =>
      if i = [] ∧ f = [] then none else some (valBE (i ++ f), f.length)
    | _, _ => none

/-- Parse a finite decimal literal, the core of `Decimal.__new__` for string
input (specials, underscores and padding whitespace are outside the model). -/
def parseDecChars (l : List Char) : Option Dec :=
  let st := parseSign l
  let sp := splitAtFirst (fun c => c == 'E' || c == 'e') st.2
  match parseMantissa sp.1 with
  | none => none
  | some vf =>
    match sp.2 with
    | none => some ⟨st.1 * (vf.1 : Int), -(vf.2 : Int)⟩
    | some ep =>
      match parseExpPart ep with
      | none => none
      | some e => some ⟨st.1 * (vf.1 : Int), e - (vf.2 : Int)⟩

/-- Model of `Decimal(string)`. -/
def decOfString (s : String) : Option Dec := parseDecChars s.toList

/-- Exact addition of decimals: align at the smaller exponent and add the
scaled coefficients, as Python does before any context rounding. -/
def decAdd (a b : Dec) : Dec :=
  let e := min a.exp b.exp
  ⟨a.coeff * 10 ^ (a.exp - e).toNat + b.coeff * 10 ^ (b.exp - e).toNat, e⟩

/-- The zero decimal, `Decimal(string zero)` with exponent 0. -/
def decZero : Dec := ⟨0, 0⟩

/-!
JSON model.  `jsonParse` models `json.loads`: a fuel-based recursive-descent
parser for the JSON grammar with the same whitespace and trailing-data rules.
Numeric literals are retained verbatim in `Json.num`; Python turns them into
int or float and the code under scrutiny re-stringifies them before decimal
conversion, which reproduces the literal for integer literals and for the
canonically formatted decimals this system handles (the system prompt asks
for quantities and amounts as JSON strings, so numeric fields normally do not
take this path at all).
-/

inductive Json where
  | null : Json
  | bool (b : Bool) : Json
  | num (lit : String) : Json
  | str (s : String) : Json
  | arr (items : List Json) : Json
  | obj (fields : List (String × Json)) : Json

/-- JSON insignificant whitespace. -/
def jsonWs (c : Char) : Bool :=
  c == ' ' || c == '\t' || c == '\n' || c == '\r'

def skipWs (l : List Char) : List Char := l.dropWhile jsonWs

def hexDigit? (c : Char) : Option Nat :=
  if 48 ≤ c.toNat ∧ c.toNat ≤ 57 then some (c.toNat - 48)
  else if 97 ≤ c.toNat ∧ c.toNat ≤ 102 then some (c.toNat - 87)
  else if 65 ≤ c.toNat ∧ c.toNat ≤ 70 then some (c.toNat - 55)
  else none

/-- Parse the body of a JSON string after the opening quote, handling the
escape sequences of the grammar; strict mode rejects raw control characters. -/
def parseStrBody (fuel : Nat) (l : List Char) (acc : List Char) :
    Option (String × List Char) :=
  match fuel with
  | 0 => none
  | fuel + 1 =>
    match l with
    | [] => none
    | c :: t =>
      if c = '"' then some (String.mk acc.reverse, t)
      else if c = '\\' then
        match t with
        | [] => none
        | e :: t2 =>
          if e = '"' then parseStrBody fuel t2 ('"' :: acc)
          else if e = '\\' then parseStrBody fuel t2 ('\\' :: acc)
          else if e = '/' then parseStrBody fuel t2 ('/' :: acc)
          else if e = 'b' then parseStrBody fuel t2 ('\x08' :: acc)
          else if e = 'f' then parseStrBody fuel t2 ('\x0C' :: acc)
          else if e = 'n' then parseStrBody fuel t2 ('\n' :: acc)
          else if e = 'r' then parseStrBody fuel t2 ('\r' :: acc)
          else if e = 't' then parseStrBody fuel t2 ('\t' :: acc)
          else if e = 'u' then
            match t2 with
            | h1 :: h2 :: h3 :: h4 :: t3 =>
              match hexDigit? h1, hexDigit? h2, hexDigit? h3, hexDigit? h4 with
              | some a, some b, some cc, some dd =>
                let code := ((a * 16 + b) * 16 + cc) * 16 + dd
                if code.isValidChar then
                  parseStrBody fuel t3 (Char.ofNat code :: acc)
                else none
              | _, _, _, _ => none
            | _ => none
          else none
      else if c.toNat < 32 then none
      else parseStrBody fuel t (c :: acc)

/-- Parse a JSON number literal (the regular expression of the json module),
returning the literal text and the remaining input. -/
def parseNumLit (l : List Char) : Option (String × List Char) :=
  let isDigit : Char → Bool := fun c => 48 ≤ c.toNat && c.toNat ≤ 57
  let signOf : List Char × List Char :=
    match l with
    | '-' :: t => (['-'], t)
    | _ => ([], l)
  let intAndRest : Option (List Char × List Char) :=
    match signOf.2 with
    | '0' :: t => some (['0'], t)
    | c :: t =>
      if isDigit c && !(c == '0') then
        some (c :: t.takeWhile isDigit, t.dropWhile isDigit)
      else none
    | [] => none
  match intAndRest with
  | none => none
  | some (ip, rest) =>
    let fracAndRest : Option (List Char × List Char) :=
      match rest with
      | '.' :: t =>
        let ds := t.takeWhile isDigit
        if ds = [] then none else some ('.' :: ds, t.dropWhile isDigit)
      | _ => some ([], rest)
    match fracAndRest with
    | none => none
    | some (fp, rest2) =>
      let expAndRest : Option (List Char × List Char) :=
        match rest2 with
        | c :: t =>
          if c == 'e' || c == 'E' then
            let st : List Char × List Char :=
              match t with
              | s :: t2 => if s == '+' || s == '-' then ([c, s], t2) else ([c], t)
              | [] => ([c], [])
            let ds := st.2.takeWhile isDigit
            if ds = [] then none else some (st.1 ++ ds, st.2.dropWhile isDigit)
          else some ([], rest2)
        | [] => some ([], rest2)
      match expAndRest with
      | none => none
      | some (ep, rest3) =>
        some (String.mk (signOf.1 ++ ip ++ fp ++ ep), rest3)

mutual

/-- Parse one JSON value after skipping leading whitespace. -/
def parseVal (fuel : Nat) (l : List Char) : Option (Json × List Char) :=
  match fuel with
  | 0 => none
  | fuel + 1 =>
    match skipWs l with
    | [] => none
    | c :: t =>
      if c = '"' then
        match parseStrBody (fuel + 1) t [] with
        | some (s, rest) => some (Json.str s, rest)
        | none => none
      else if c = '[' then
        match skipWs t with
        | ']' :: rest => some (Json.arr [], rest)
        | _ => match parseItems fuel t with
          | some (items, rest) => some (Json.arr items, rest)
          | none => none
      else if c = '{' then
        match skipWs t with
        | '}' :: rest => some (Json.obj [], rest)
        | _ => match parseMembers fuel t with
          | some (fields, rest) => some (Json.obj fields, rest)
          | none => none
      else if c = 't' then
        match t with
        | 'r' :: 'u' :: 'e' :: rest => some (Json.bool true, rest)
        | _ => none
      else if c = 'f' then
        match t with
        | 'a' :: 'l' :: 's' :: 'e' :: rest => some (Json.bool false, rest)
        | _ => none
      else if c = 'n' then
        match t with
        | 'u' :: 'l' :: 'l' :: rest => some (Json.null, rest)
        | _ => none
      else
        match parseNumLit (c :: t) with
        | some (lit, rest) => some (Json.num lit, rest)
        | none => none

/-- Parse the comma-separated items of a non-empty array, up to `]`. -/
def parseItems (fuel : Nat) (l : List Char) : Option (List Json × List Char) :=
  match fuel with
  | 0 => none
  | fuel + 1 =>
    match parseVal fuel l with
    | none => none
    | some (v, rest) =>
      match skipWs rest with
      | ',' :: rest2 =>
        match parseItems fuel rest2 with
        | some (vs, rest3) => some (v :: vs, rest3)
        | none => none
      | ']' :: rest2 => some ([v], rest2)
      | _ => none

/-- Parse the comma-separated members of a non-empty object, up to `}`. -/
def parseMembers (fuel : Nat) (l : List Char) :
    Option (List (String × Json) × List Char) :=
  match fuel with
  | 0 => none
  | fuel + 1 =>
    match skipWs l with
    | '"' :: t =>
      match parseStrBody fuel t [] with
      | none => none
      | some (k, rest) =>
        match skipWs rest with
        | ':' :: rest2 =>
          match parseVal fuel rest2 with
          | none => none
          | some (v, rest3) =>
            match skipWs rest3 with
            | ',' :: rest4 =>
              match parseMembers fuel rest4 with
              | some (fs, rest5) => some ((k, v) :: fs, rest5)
              | none => none
            | '}' :: rest4 => some ([(k, v)], rest4)
            | _ => none
        | _ => none
    | _ => none

end

/-- Model of `json.loads`: parse one value and require only whitespace after
it (otherwise Python raises the Extra data error). -/
def jsonParse (s : String) : Option Json :=
  match parseVal (4 * s.toList.length + 8) s.toList with
  | some (v, rest) => if skipWs rest = [] then some v else none
  | none => none

/-!
The pydantic `Transaction` model (`models/transaction.py`) and the
`ResponseParser` (`parsers/response_parser.py`).
-/

/-- The pydantic model `Transaction`: values of this type only arise through
the validating constructions modelled below, mirroring how pydantic models
are instantiated. -/
structure Transaction where
  date : String
  isin : String
  product_name : String
  quantity : Dec
  amount_euros : Dec
  transaction_type : String
deriving DecidableEq, Repr

/-- The three admissible literals of the `transaction_type` field. -/
def validKinds : List String := ["BUY", "SELL", "DIVIDEND"]

/-- Lookup in a decoded JSON object; Python dictionaries keep the last
binding of a duplicated key. -/
def objGet (fields : List (String × Json)) (k : String) : Option Json :=
  fields.foldl (fun acc p => if p.1 = k then some p.2 else acc) none

/-- Model of Python `str()` on a decoded JSON value, as fed to `Decimal`.
Strings pass through unchanged and numeric literals are reproduced (see the
note on `Json.num`).  For containers only the leading bracket matters here:
every Python rendering of a list or dict starts with a bracket character and
therefore never parses as a decimal, so the body is abbreviated. -/
def pyStr : Json → String
  | .str s => s
  | .num lit => lit
  | .bool true => "True"
  | .bool false => "False"
  | .null => "None"
  | .arr _ => "[container]"
  | .obj _ => "\x7bcontainer\x7d"

/-- Errors escaping `_convert_to_transactions`.  `positional i` is the
`ValueError` raised by the except clause, carrying the 1-based index `i` of
the offending record; `invalidOperation` is the `decimal.InvalidOperation`
raised by `Decimal(str(...))` on a non-decimal value, which is not in the
caught exception tuple `(KeyError, TypeError, ValueError)` and therefore
propagates without any positional information. -/
inductive ConvErr where
  | positional (idx : Nat) : ConvErr
  | invalidOperation : ConvErr
deriving DecidableEq, Repr

/-- Model of one iteration of the loop in `_convert_to_transactions`: fetch
and convert `quantity` and `amount_euros` (KeyError for a missing key is
caught and renamed to the positional error; a failed decimal conversion
raises the uncaught `InvalidOperation`), then construct the pydantic
`Transaction`, whose `ValidationError` is a `ValueError` and is caught and
renamed.  Subscripting a non-dict record raises `TypeError`, also caught.
The pydantic model in lax mode accepts only actual strings for the three
string fields, ignores extra keys, and restricts `transaction_type` to the
three literals. -/
def convertItem (idx : Nat) (item : Json) : Except ConvErr Transaction :=
  match item with
  | .obj fields =>
    match objGet fields "quantity" with
    | none => .error (.positional (idx + 1))
    | some qv =>
      match decOfString (pyStr qv) with
      | none => .error .invalidOperation
      | some q =>
        match objGet fields "amount_euros" with
        | none => .error (.positional (idx + 1))
        | some av =>
          match decOfString (pyStr av) with
          | none => .error .invalidOperation
          | some a =>
            match objGet fields "date", objGet fields "isin",
              objGet fields "product_name", objGet fields "transaction_type" with
            | some (.str date), some (.str isin), some (.str pn), some (.str tt) =>
              if tt ∈ validKinds then .ok ⟨date, isin, pn, q, a, tt⟩
              else .error (.positional (idx + 1))
            | _, _, _, _ => .error (.positional (idx + 1))
  | _ => .error (.positional (idx + 1))

/-- Model of the loop of `_convert_to_transactions`: records are converted in
order and the first failure aborts the whole batch. -/
def convertAll (idx : Nat) : List Json → Except ConvErr (List Transaction)
  | [] => .ok []
  | item :: rest =>
    match convertItem idx item with
    | .error e => .error e
    | .ok t =>
      match convertAll (idx + 1) rest with
      | .error e => .error e
      | .ok ts => .ok (t :: ts)

/-- Errors escaping `ResponseParser.parse_transactions`: `structural` covers
the ValueErrors raised for a missing bracket pair, a JSON decode failure and
a non-array payload; the other two come from record conversion. -/
inductive ParseErr where
  | structural (msg : String) : ParseErr
  | positional (idx : Nat) : ParseErr
  | invalidOperation : ParseErr
deriving DecidableEq, Repr

/-- Python `str.strip` whitespace. -/
def pyWs (c : Char) : Bool :=
  c == ' ' || c == '\t' || c == '\n' || c == '\r' || c == '\x0b' || c == '\x0c'

/-- Model of `str.strip()`. -/
def pyStrip (l : List Char) : List Char :=
  ((l.dropWhile pyWs).reverse.dropWhile pyWs).reverse

/-- Index of the first character satisfying `p` (Python `str.find`). -/
def firstIdx (p : Char → Bool) : List Char → Option Nat
  | [] => none
  | c :: t =>
    match p c with
    | true => some 0
    | false => (firstIdx p t).map (· + 1)

/-- Model of `ResponseParser._extract_json`: strip the text, locate the first
opening bracket with `find` and the last closing bracket with `rfind` (the
first closing bracket of the reversed text), and slice the text between them
inclusively; fail when either is absent. -/
def _extract_json (l : List Char) : Except ParseErr (List Char) :=
  let t := pyStrip l
  match firstIdx (fun c => c == '[') t, firstIdx (fun c => c == ']') t.reverse with
  | some s, some rj => .ok ((t.take (t.length - rj)).drop s)
  | _, _ => .error (.structural "No JSON array found in response")

/-- Model of `ResponseParser.parse_transactions`: extract the bracketed
payload, decode it with `json.loads`, require a JSON array, then convert the
records; the re-raise in the final except clause propagates conversion
errors unchanged. -/
def parse_transactions (response_text : String) : Except ParseErr (List Transaction) :=
  match _extract_json response_text.toList with
  | .error e => .error e
  | .ok jchars =>
    match jsonParse (String.mk jchars) with
    | none => .error (.structural "Invalid JSON response from LLM")
    | some (Json.arr items) =>
      match convertAll 0 items with
      | .error (.positional i) => .error (.positional i)
      | .error .invalidOperation => .error .invalidOperation
      | .ok ts => .ok ts
    | some _ => .error (.structural "Response must be a JSON array")

/-!
The aggregator (`utils/aggregator.py`).  Python compares strings by code
point; `lexLtB` is that lexicographic order on character lists, written as a
Boolean function so that concrete instances reduce in the kernel.
-/

def lexLtB : List Char → List Char → Bool
  | [], [] => false
  | [], _ :: _ => true
  | _ :: _, [] => false
  | a :: as, b :: bs =>
    if a.toNat < b.toNat then true
    else if b.toNat < a.toNat then false
    else lexLtB as bs

/-- Python string `<`. -/
def strLtB (s t : String) : Bool := lexLtB s.toList t.toList

/-- Python string `<=`. -/
def strLeB (s t : String) : Bool := !(strLtB t s)

/-- The pydantic model `AggregatedTransaction`. -/
structure AggregatedTransaction where
  isin : String
  product_name : String
  total_quantity : Dec
  total_amount_euros : Dec
  transaction_type : String
  transaction_count : Nat
deriving DecidableEq, Repr

/-- The accumulator value of the `defaultdict` in `aggregate_transactions`. -/
structure GroupAccum where
  product_name : String
  total_quantity : Dec
  total_amount_euros : Dec
  count : Nat
deriving DecidableEq, Repr

/-- Initial accumulator created on first access of a key. -/
def emptyAccum : GroupAccum := ⟨"", decZero, decZero, 0⟩

/-- One loop iteration of the aggregator on an existing accumulator: the
product name is overwritten, the decimal totals are extended, the member is
counted. -/
def updAccum (acc : GroupAccum) (t : Transaction) : GroupAccum :=
  ⟨t.product_name, decAdd acc.total_quantity t.quantity,
    decAdd acc.total_amount_euros t.amount_euros, acc.count + 1⟩

/-- Grouping key of the aggregator. -/
def txnKey (t : Transaction) : String × String := (t.isin, t.transaction_type)

/-- Model of `grouped[key]` update: a Python dict preserves insertion order
of keys, so an existing key is updated in place and a new key is appended. -/
def upsert (g : List ((String × String) × GroupAccum)) (t : Transaction) :
    List ((String × String) × GroupAccum) :=
  if (g.find? (fun p => p.1 = txnKey t)).isSome then
    g.map (fun p => if p.1 = txnKey t then (p.1, updAccum p.2 t) else p)
  else g ++ [(txnKey t, updAccum emptyAccum t)]

/-- The grouping loop of `aggregate_transactions`. -/
def buildGroups (l : List Transaction) : List ((String × String) × GroupAccum) :=
  l.foldl upsert []

/-- The sort key of the aggregator: the Python tuple order on
`(isin, transaction_type)`. -/
def aggLe (a b : AggregatedTransaction) : Prop :=
  strLtB a.isin b.isin = true ∨
    (a.isin = b.isin ∧ strLeB a.transaction_type b.transaction_type = true)

instance : DecidableRel aggLe := fun a b => by unfold aggLe; infer_instance

/-- Strict version of the sort key order, used to identify sorted outputs. -/
def aggKeyLt (a b : AggregatedTransaction) : Prop :=
  strLtB a.isin b.isin = true ∨
    (a.isin = b.isin ∧ strLtB a.transaction_type b.transaction_type = true)

instance : DecidableRel aggKeyLt := fun a b => by unfold aggKeyLt; infer_instance

/-- Conversion of one grouped entry into the pydantic output model. -/
def toAgg (p : (String × String) × GroupAccum) : AggregatedTransaction :=
  ⟨p.1.1, p.2.product_name, p.2.total_quantity, p.2.total_amount_euros,
    p.1.2, p.2.count⟩

/-- Model of `aggregate_transactions`: group, convert, and sort by
`(isin, transaction_type)` with a stable sort (Python `list.sort`; with the
pairwise distinct keys produced by grouping, any correct sort gives the same
result). -/
def aggregate_transactions (l : List Transaction) : List AggregatedTransaction :=
  ((buildGroups l).map toAgg).insertionSort aggLe

/-!
The storage layer (`storage/dynamodb_service.py`).  The table is a list of
items keyed by `(pk, sk)`; `put_item` replaces an existing key.  A query for
one partition returns items in ascending UTF-8 order of the sort key, which
for the ASCII keys of this schema is `lexLtB`.
-/

/-- The PDF metadata record assembled by `store_pdf_with_transactions`. -/
structure PdfRecord where
  pk : String
  sk : String
  entityType : String
  pdfId : String
  filename : String
  sha256 : String
  fileSize : Nat
  parsedAt : String
  transactionCount : Nat
  createdAt : String
deriving DecidableEq, Repr

/-- One stored transaction record; quantity and amount are serialized with
`str()` to preserve the exact decimal. -/
structure TxnRecord where
  pk : String
  sk : String
  entityType : String
  pdfId : String
  transactionIndex : Nat
  date : String
  isin : String
  productName : String
  quantity : String
  amountEuros : String
  transactionType : String
  parsedAt : String
deriving DecidableEq, Repr

inductive Item where
  | pdf (r : PdfRecord) : Item
  | txn (r : TxnRecord) : Item
deriving DecidableEq, Repr

def itemKey : Item → String × String
  | .pdf r => (r.pk, r.sk)
  | .txn r => (r.pk, r.sk)

/-- DynamoDB `put_item`: replace the item with the same key, else insert. -/
def putItem (t : List Item) (i : Item) : List Item :=
  if (t.find? (fun j => itemKey j = itemKey i)).isSome then
    t.map (fun j => if itemKey j = itemKey i then i else j)
  else t ++ [i]

/-- Model of the Python format `f"\x7bidx:04d\x7d"`: at least four digits,
zero padded. -/
def pad4 (n : Nat) : String :=
  String.mk (List.replicate (4 - (natDigitsBE n).length) '0' ++
    (natDigitsBE n).map Nat.digitChar)

def pdfRecordOf (pdf_sha256 pdf_filename : String) (pdf_size : Nat)
    (txCount : Nat) (parsed_at created_at : String) : PdfRecord :=
  ⟨"PDF#" ++ pdf_sha256, "METADATA", "PDF", pdf_sha256, pdf_filename,
    pdf_sha256, pdf_size, parsed_at, txCount, created_at⟩

def txnRecordOf (pdf_sha256 : String) (idx : Nat) (t : Transaction)
    (parsed_at : String) : TxnRecord :=
  ⟨"PDF#" ++ pdf_sha256, "TXN#" ++ pad4 idx, "TRANSACTION", pdf_sha256, idx,
    t.date, t.isin, t.product_name, decToString t.quantity,
    decToString t.amount_euros, t.transaction_type, parsed_at⟩

/-- The items queued by `store_pdf_with_transactions`, metadata first, then
the transactions in order of their index. -/
def storeItems (pdf_sha256 pdf_filename : String) (pdf_size : Nat)
    (txns : List Transaction) (parsed_at created_at : String) : List Item :=
  Item.pdf (pdfRecordOf pdf_sha256 pdf_filename pdf_size txns.length
      parsed_at created_at) ::
    txns.enum.map (fun p => Item.txn (txnRecordOf pdf_sha256 p.1 p.2 parsed_at))

/-- Model of a completed `store_pdf_with_transactions`: every queued item is
written. -/
def store_pdf_with_transactions (table : List Item) (pdf_sha256 pdf_filename : String)
    (pdf_size : Nat) (txns : List Transaction) (parsed_at created_at : String) :
    List Item :=
  (storeItems pdf_sha256 pdf_filename pdf_size txns parsed_at created_at).foldl
    putItem table

def chunkedAux {α : Type} (fuel n : Nat) (l : List α) : List (List α) :=
  match fuel with
  | 0 => []
  | fuel + 1 =>
    match l with
    | [] => []
    | _ => l.take n :: chunkedAux fuel n (l.drop n)

/-- Split a list into consecutive chunks of `n` elements (`n > 0`). -/
def chunked {α : Type} (n : Nat) (l : List α) : List (List α) :=
  chunkedAux l.length n l

/-- Model of `store_pdf_with_transactions` interrupted by a write failure:
the boto3 `batch_writer` flushes a `BatchWriteItem` request after every 25
queued items (its default flush amount) and once more on exit, so the queued
items go out in chunks of 25 in queueing order; a `ClientError` raised by
the flush of chunk `failAt` aborts the remaining flushes and is re-raised by
the service.  The resulting table contains exactly the chunks before
`failAt`. -/
def store_pdf_interrupted (table : List Item) (pdf_sha256 pdf_filename : String)
    (pdf_size : Nat) (txns : List Transaction) (parsed_at created_at : String)
    (failAt : Nat) : List Item :=
  ((chunked 25 (storeItems pdf_sha256 pdf_filename pdf_size txns parsed_at
      created_at)).take failAt).foldl (fun acc chunk => chunk.foldl putItem acc) table

/-- DynamoDB `get_item`. -/
def getItem (table : List Item) (key : String × String) : Option Item :=
  table.find? (fun j => itemKey j = key)

/-- Model of `check_pdf_exists`: a `get_item` on the metadata key. -/
def check_pdf_exists (table : List Item) (pdf_sha256 : String) : Bool :=
  (getItem table ("PDF#" ++ pdf_sha256, "METADATA")).isSome

/-- Model of `get_pdf_metadata`. -/
def get_pdf_metadata (table : List Item) (pdf_id : String) : Option PdfRecord :=
  match getItem table ("PDF#" ++ pdf_id, "METADATA") with
  | some (.pdf r) => some r
  | _ => none

def strStartsWith (s p : String) : Bool := p.toList.isPrefixOf s.toList

/-- Sort key order on items, the order in which a DynamoDB query returns the
items of one partition. -/
def itemSkLe (i j : Item) : Prop := strLeB (itemKey i).2 (itemKey j).2 = true

instance : DecidableRel itemSkLe := fun i j => by unfold itemSkLe; infer_instance

/-- Conversion of one stored record back into a pydantic `Transaction`:
`Decimal` conversion of the stored strings and the pydantic validation. -/
def txnOfRecord (r : TxnRecord) : Option Transaction :=
  match decOfString r.quantity, decOfString r.amountEuros with
  | some q, some a =>
    if r.transactionType ∈ validKinds then
      some ⟨r.date, r.isin, r.productName, q, a, r.transactionType⟩
    else none
  | _, _ => none

/-- Model of `get_transactions_for_pdf`: query the partition for sort keys
beginning with the transaction marker (returned in ascending sort-key
order), then convert each record; any conversion failure is caught by the
broad except clause, which returns the empty list. -/
def get_transactions_for_pdf (table : List Item) (pdf_id : String) :
    List Transaction :=
  let items := (table.filter (fun j =>
    decide ((itemKey j).1 = "PDF#" ++ pdf_id) &&
      strStartsWith (itemKey j).2 "TXN#")).insertionSort itemSkLe
  match items.mapM (fun j => match j with
    | .txn r => txnOfRecord r
    | .pdf _ => none) with
  | some ts => ts
  | none => []

/-!
The ingestion endpoint (`parse_pdf` in `api/main.py`).  External effects are
explicit: `sha` models `hashlib.sha256(...).hexdigest()`, `llm` models the
Bedrock call inside `LLMParser.parse_transactions` (returning the raw
response text or failing), `now` models `datetime.now().isoformat()`, and
`storeRaises` injects an exception at the `store_pdf_with_transactions`
call, which the endpoint catches and only logs.  The `aggregate` form field
of the endpoint is accepted but never used by the handler, so it does not
appear in the model.
-/

structure Env where
  sha : List Nat → String
  llm : List Nat → Except String String
  now : String
  storeRaises : Bool

/-- An HTTP error response (`HTTPException` or the generic 500 handler). -/
structure HttpError where
  status : Nat
  detail : String
deriving DecidableEq, Repr

/-- The pydantic response model `ParseResponse`. -/
structure ParseResponse where
  transactions : List Transaction
  aggregated : Option (List AggregatedTransaction)
  total_transactions : Nat
  pdf_filename : String
  parsed_at : String
deriving DecidableEq, Repr

/-- The required fields of the `ParseResponse` model (those declared without
a default). -/
def parseResponseRequired : List String :=
  ["transactions", "total_transactions", "pdf_filename", "parsed_at"]

/-- The keyword names passed at the construction site in `parse_pdf`:
`ParseResponse(transactions=…, total_transactions=…, pdfFilename=…,
parsed_at=…)`. -/
def parseResponseCallKeys : List String :=
  ["transactions", "total_transactions", "pdfFilename", "parsed_at"]

/-- Model of the `ParseResponse(...)` call in `parse_pdf`.  Pydantic ignores
unknown keyword arguments under the default model configuration and raises a
`ValidationError` when a required field is missing; the call site passes the
filename under the keyword `pdfFilename` while the declared field is
`pdf_filename` with no alias, so the field is missing. -/
def buildParseResponse (txns : List Transaction) (total : Nat)
    (filename parsed_at : String) : Except String ParseResponse :=
  if parseResponseRequired.all (fun k => parseResponseCallKeys.contains k) then
    .ok ⟨txns, none, total, filename, parsed_at⟩
  else .error "1 validation error for ParseResponse: pdf_filename Field required"

def parseErrMsg : ParseErr → String
  | .structural msg => msg
  | .positional i => "Invalid transaction data at index " ++ pad4 i
  | .invalidOperation => "[ConversionSyntax]"

/-- Lower casing of ASCII letters (`str.lower` restricted to the ASCII
filenames in scope). -/
def strToLower (s : String) : String :=
  String.mk (s.toList.map (fun c =>
    if 65 ≤ c.toNat ∧ c.toNat ≤ 90 then Char.ofNat (c.toNat + 32) else c))

def strEndsWith (s p : String) : Bool :=
  p.toList.reverse.isPrefixOf s.toList.reverse

/-- The state of one request after the body of `parse_pdf` up to and
including the empty-transaction check, before the `ParseResponse`
construction: the outcome (transactions plus the parsed-at timestamp, or an
HTTP error), the table state, and whether the LLM was invoked. -/
structure CoreResult where
  outcome : Except HttpError (List Transaction × String)
  table : List Item
  llmCalled : Bool
deriving Repr

/-- The pipeline of `parse_pdf` up to the response construction, in source
order: filename validation, minimum-size check, fingerprint, dedup gate; on
a hit, retrieval of transactions and metadata (falling back to the clock
when metadata is absent); on a miss, the LLM extraction (any exception
becoming a generic 500), parsing, and the persistence attempt whose failure
is caught and logged; finally the rejection of an empty transaction list. -/
def ingestCore (env : Env) (table : List Item) (filename : String)
    (content : List Nat) : CoreResult :=
  if filename = "" ∨ strEndsWith (strToLower filename) ".pdf" = false then
    ⟨.error ⟨400, "File must be a PDF and must have a valid filename"⟩, table, false⟩
  else if content.length < 100 then
    ⟨.error ⟨400, "PDF file is too small or empty"⟩, table, false⟩
  else
    let h := env.sha content
    if check_pdf_exists table h then
      let txns := get_transactions_for_pdf table h
      let parsed_at :=
        match get_pdf_metadata table h with
        | some m => m.parsedAt
        | none => env.now
      if txns = [] then
        ⟨.error ⟨400, "No transactions found in PDF"⟩, table, false⟩
      else ⟨.ok (txns, parsed_at), table, false⟩
    else
      match env.llm content with
      | .error msg => ⟨.error ⟨500, "Error parsing PDF: " ++ msg⟩, table, true⟩
      | .ok text =>
        match parse_transactions text with
        | .error e => ⟨.error ⟨500, "Error parsing PDF: " ++ parseErrMsg e⟩, table, true⟩
        | .ok txns =>
          let table2 :=
            if env.storeRaises then table
            else store_pdf_with_transactions table h filename content.length
              txns env.now env.now
          if txns = [] then
            ⟨.error ⟨400, "No transactions found in PDF"⟩, table2, true⟩
          else ⟨.ok (txns, env.now), table2, true⟩

/-- The result of one full request. -/
structure IngestResult where
  result : Except HttpError ParseResponse
  table : List Item
  llmCalled : Bool
deriving Repr

/-- Model of the whole `parse_pdf` endpoint: the core pipeline followed by
the `ParseResponse` construction, whose `ValidationError` falls into the
generic exception handler and becomes a 500 error. -/
def parse_pdf (env : Env) (table : List Item) (filename : String)
    (content : List Nat) : IngestResult :=
  let core := ingestCore env table filename content
  match core.outcome with
  | .error e => ⟨.error e, core.table, core.llmCalled⟩
  | .ok p =>
    match buildParseResponse p.1 p.1.length filename p.2 with
    | .ok resp => ⟨.ok resp, core.table, core.llmCalled⟩
    | .error msg => ⟨.error ⟨500, "Error parsing PDF: " ++ msg⟩, core.table, core.llmCalled⟩

/-!
Characterisation of the grouping loop: looking up a key in the built group
list gives exactly the fold of the accumulator over the sub-list of records
with that key, in input order.
-/

/-- Lookup of a key in the grouped structure (Python `key in grouped` and
`grouped[key]`). -/
def groupLookup (g : List ((String × String) × GroupAccum)) (k : String × String) :
    Option GroupAccum :=
  (g.find? (fun p => p.1 = k)).map Prod.snd

/-- Well-formedness from the data model: records sharing an instrument and
kind carry the same product display name. -/
def pnCoherent (l : List Transaction) : Prop :=
  ∀ t₁ ∈ l, ∀ t₂ ∈ l, txnKey t₁ = txnKey t₂ → t₁.product_name = t₂.product_name

/-- The sort key of an aggregated row. -/
def aggKey (g : AggregatedTransaction) : String × String := (g.isin, g.transaction_type)

/-!
Concrete inputs used by the claim theorems below.
-/

/-- A transaction carrying the quantity and amount of the documented
example. -/
def demoTxn : Transaction :=
  ⟨"02 Sep 2025", "IE00B5BMR087", "iShares Core SP 500", ⟨85178, -6⟩, ⟨5000, -2⟩, "BUY"⟩

/-- A second transaction of the same instrument. -/
def demoTxn2 : Transaction :=
  ⟨"03 Sep 2025", "IE00B5BMR087", "iShares Core SP 500", ⟨1, 0⟩, ⟨10, 0⟩, "SELL"⟩

/-- An LLM response carrying the two demo transactions. -/
def demoLlmText : String :=
  "[\x7b\"date\": \"02 Sep 2025\", \"isin\": \"IE00B5BMR087\", \"product_name\": \"iShares Core SP 500\", \"quantity\": \"0.085178\", \"amount_euros\": \"50.00\", \"transaction_type\": \"BUY\"\x7d, \x7b\"date\": \"03 Sep 2025\", \"isin\": \"IE00B5BMR087\", \"product_name\": \"iShares Core SP 500\", \"quantity\": \"1\", \"amount_euros\": \"10\", \"transaction_type\": \"SELL\"\x7d]"

/-- A request environment for a first ingestion. -/
def demoEnv : Env := ⟨fun _ => "HASH", fun _ => .ok demoLlmText, "T1", false⟩

/-- A later environment with the same fingerprint function but a failing
extraction collaborator and a different clock: reaching the collaborator
would be visible. -/
def demoEnvHit : Env := ⟨fun _ => "HASH", fun _ => .error "unreachable", "T2", false⟩

/-- The first environment with a storage failure injected. -/
def demoEnvStoreFail : Env := ⟨fun _ => "HASH", fun _ => .ok demoLlmText, "T1", true⟩

/-- An environment whose extraction yields an empty transaction array. -/
def demoEnvEmpty : Env := ⟨fun _ => "HASH", fun _ => .ok "[]", "T1", false⟩

/-- A minimal document body above the size threshold. -/
def demoBytes : List Nat := List.replicate 100 0

/-- The table left by the first demo ingestion. -/
def demoTable : List Item := (parse_pdf demoEnv [] "statement.pdf" demoBytes).table

/-- The table left by ingesting a document whose extraction yields no
transactions. -/
def demoEmptyTable : List Item :=
  (parse_pdf demoEnvEmpty [] "statement.pdf" demoBytes).table

/-- Twenty-five one-instrument buys, enough to need two batch flushes
together with the metadata record. -/
def txns25 : List Transaction :=
  (List.range 25).map (fun i =>
    ⟨"01 Jan 2025", "DE0000000001", "Prod", ⟨(i : Int), 0⟩, ⟨(i : Int), 0⟩, "BUY"⟩)

/-- Two same-key transactions with different product names. -/
def tPnX : Transaction := ⟨"d", "A", "X", ⟨1, 0⟩, ⟨1, 0⟩, "BUY"⟩

def tPnY : Transaction := ⟨"d", "A", "Y", ⟨1, 0⟩, ⟨1, 0⟩, "BUY"⟩

/-- The three-record aggregation example of the specification. -/
def exampleThree : List Transaction :=
  [⟨"d1", "A", "P", ⟨1, 0⟩, ⟨10, 0⟩, "BUY"⟩,
   ⟨"d2", "A", "P", ⟨2, 0⟩, ⟨20, 0⟩, "BUY"⟩,
   ⟨"d3", "A", "P", ⟨1, 0⟩, ⟨15, 0⟩, "SELL"⟩]

/-- The two groups the example must aggregate to. -/
def exampleThreeAggregated : List AggregatedTransaction :=
  [⟨"A", "P", ⟨3, 0⟩, ⟨30, 0⟩, "BUY", 2⟩,
   ⟨"A", "P", ⟨1, 0⟩, ⟨15, 0⟩, "SELL", 1⟩]

/-- A response whose third record (1-based) carries the unknown kind. -/
def refundAtThreeText : String :=
  "[\x7b\"date\": \"a\", \"isin\": \"b\", \"product_name\": \"c\", \"quantity\": \"1\", \"amount_euros\": \"2\", \"transaction_type\": \"BUY\"\x7d, \x7b\"date\": \"a\", \"isin\": \"b\", \"product_name\": \"c\", \"quantity\": \"1\", \"amount_euros\": \"2\", \"transaction_type\": \"SELL\"\x7d, \x7b\"date\": \"a\", \"isin\": \"b\", \"product_name\": \"c\", \"quantity\": \"1\", \"amount_euros\": \"2\", \"transaction_type\": \"REFUND\"\x7d]"

/-- A response whose first record has a non-decimal quantity. -/
def badQuantityText : String :=
  "[\x7b\"date\": \"a\", \"isin\": \"b\", \"product_name\": \"c\", \"quantity\": \"abc\", \"amount_euros\": \"2\", \"transaction_type\": \"BUY\"\x7d]"

/-- Definition following the words of the specification: the substring of
the text from the first opening bracket to the last closing bracket,
inclusive (empty when the last closing bracket precedes the first opening
one, as the Python slice is then empty). -/
def bracketSub (l : List Char) : List Char :=
  match firstIdx (fun c => c == '[') l, firstIdx (fun c => c == ']') l.reverse with
  | some s, some rj => (l.take (l.length - rj)).drop s
  | _, _ => []

/-- Decode a string as a JSON array of records, the success condition of
the structured-payload stage. -/
def decodedRecords? (s : String) : Option (List Json) :=
  match jsonParse s with
  | some (Json.arr items) => some items
  | _ => none

/-- The rank of a transaction kind in the enumeration order of the
specification: BUY before DIVIDEND before SELL. -/
def kindRank (s : String) : Nat :=
  if s = "BUY" then 0 else if s = "DIVIDEND" then 1 else 2

/-- The demo LLM response wrapped in surrounding prose, as in the tolerance
example of the specification. -/
def demoProseText : String :=
  "Here you go:\n" ++ demoLlmText ++ "\nThanks!"


theorem char_toNat_inj {a b : Char} (h : a.toNat = b.toNat) : a = b := by
  rw [← Char.ofNat_toNat a, h, Char.ofNat_toNat]

theorem digitsAux_val (fuel : Nat) : ∀ n : Nat, n ≤ fuel →
    valLE (digitsAux fuel n) = n := by
  induction fuel with
  | zero =>
    intro n hn
    interval_cases n
    simp [digitsAux, valLE]
  | succ fuel ih =>
    intro n hn
    by_cases h : n = 0
    · simp [digitsAux, h, valLE]
    · have hdiv : n / 10 ≤ fuel := by
        have : n / 10 < n := Nat.div_lt_self (Nat.pos_of_ne_zero h) (by norm_num)
        omega
      simp only [digitsAux, h, if_false, valLE, ih _ hdiv]
      exact Nat.mod_add_div n 10

theorem digitsAux_lt10 (fuel : Nat) : ∀ n d : Nat, d ∈ digitsAux fuel n → d < 10 := by
  induction fuel with
  | zero => intro n d hd; simp [digitsAux] at hd
  | succ fuel ih =>
    intro n d hd
    by_cases h : n = 0
    · simp [digitsAux, h] at hd
    · simp only [digitsAux, h, if_false, List.mem_cons] at hd
      rcases hd with hd | hd
      · subst hd; exact Nat.mod_lt _ (by norm_num)
      · exact ih _ _ hd

theorem valBE_append (l : List Nat) (d : Nat) :
    valBE (l ++ [d]) = 10 * valBE l + d := by
  simp [valBE, List.foldl_append]

theorem valBE_reverse (l : List Nat) : valBE l.reverse = valLE l := by
  induction l with
  | nil => rfl
  | cons d ds ih =>
    simp [List.reverse_cons, valBE_append, ih, valLE]
    ring

theorem valBE_natDigitsBE (n : Nat) : valBE (natDigitsBE n) = n := by
  unfold natDigitsBE
  by_cases h : n = 0
  · simp [h, valBE]
  · simp only [h, if_false, valBE_reverse]
    exact digitsAux_val n n le_rfl

theorem natDigitsBE_ne_nil (n : Nat) : natDigitsBE n ≠ [] := by
  unfold natDigitsBE
  by_cases h : n = 0
  · simp [h]
  · simp only [h, if_false]
    intro hcon
    have := digitsAux_val n n le_rfl
    rw [show digitsAux n n = [] from by simpa using congrArg List.reverse hcon] at this
    simp [valLE] at this
    exact h this.symm

theorem natDigitsBE_lt10 (n : Nat) : ∀ d ∈ natDigitsBE n, d < 10 := by
  unfold natDigitsBE
  by_cases h : n = 0
  · simp [h]
  · simp only [h, if_false]
    intro d hd
    exact digitsAux_lt10 n n d (List.mem_reverse.mp hd)

theorem valBE_zero_cons (l : List Nat) : valBE (0 :: l) = valBE l := rfl

theorem valBE_replicate_zero (k : Nat) (l : List Nat) :
    valBE (List.replicate k 0 ++ l) = valBE l := by
  induction k with
  | zero => rfl
  | succ k ih => simpa [List.replicate_succ] using ih

theorem charDigit?_digitChar {k : Nat} (h : k < 10) :
    charDigit? (Nat.digitChar k) = some k := by
  interval_cases k <;> rfl

theorem digitChar_not_special {k : Nat} (h : k < 10) :
    Nat.digitChar k ≠ '-' ∧ Nat.digitChar k ≠ '+' ∧
    ((Nat.digitChar k == '.') = false) ∧
    ((Nat.digitChar k == 'E' || Nat.digitChar k == 'e') = false) := by
  interval_cases k <;> decide

theorem readDigits?_map_digitChar : ∀ {l : List Nat}, (∀ x ∈ l, x < 10) →
    readDigits? (l.map Nat.digitChar) = some l := by
  intro l
  induction l with
  | nil => intro _; rfl
  | cons a t ih =>
    intro h
    have ha : a < 10 := h a (List.mem_cons_self a t)
    have ht : ∀ x ∈ t, x < 10 := fun x hx => h x (List.mem_cons_of_mem a hx)
    simp only [readDigits?, List.map_cons, List.mapM_cons, charDigit?_digitChar ha]
    simp only [readDigits?] at ih
    rw [ih ht]
    rfl

theorem splitAtFirst_none {p : Char → Bool} : ∀ {l : List Char},
    (∀ c ∈ l, p c = false) → splitAtFirst p l = (l, none) := by
  intro l
  induction l with
  | nil => intro _; rfl
  | cons c t ih =>
    intro h
    have hc : p c = false := h c (List.mem_cons_self c t)
    have ht : ∀ x ∈ t, p x = false := fun x hx => h x (List.mem_cons_of_mem c hx)
    simp [splitAtFirst, hc, ih ht]

theorem splitAtFirst_app {p : Char → Bool} {c : Char} (l₂ : List Char) :
    ∀ {l₁ : List Char}, (∀ x ∈ l₁, p x = false) → p c = true →
    splitAtFirst p (l₁ ++ c :: l₂) = (l₁, some l₂) := by
  intro l₁
  induction l₁ with
  | nil => intro _ hc; simp [splitAtFirst, hc]
  | cons a t ih =>
    intro h hc
    have ha : p a = false := h a (List.mem_cons_self a t)
    have ht : ∀ x ∈ t, p x = false := fun x hx => h x (List.mem_cons_of_mem a hx)
    simp [splitAtFirst, ha, ih ht hc]

theorem parseSign_of_digit {k : Nat} (h : k < 10) (t : List Char) :
    parseSign (Nat.digitChar k :: t) = (1, Nat.digitChar k :: t) := by
  obtain ⟨h1, h2, _, _⟩ := digitChar_not_special h
  simp [parseSign, h1, h2]

theorem parseMantissa_digits {l : List Nat} (h : ∀ x ∈ l, x < 10) (hne : l ≠ []) :
    parseMantissa (l.map Nat.digitChar) = some (valBE l, 0) := by
  have hnodot : ∀ c ∈ l.map Nat.digitChar, (c == '.') = false := by
    intro c hc
    obtain ⟨k, hk, rfl⟩ := List.mem_map.mp hc
    exact (digitChar_not_special (h k hk)).2.2.1
  simp only [parseMantissa, splitAtFirst_none hnodot, readDigits?_map_digitChar h]
  simp [hne]

theorem parseMantissa_digits_dot {i f : List Nat}
    (hi : ∀ x ∈ i, x < 10) (hf : ∀ x ∈ f, x < 10) (hne : ¬(i = [] ∧ f = [])) :
    parseMantissa (i.map Nat.digitChar ++ '.' :: f.map Nat.digitChar) =
      some (valBE (i ++ f), f.length) := by
  have hnodot : ∀ c ∈ i.map Nat.digitChar, (c == '.') = false := by
    intro c hc
    obtain ⟨k, hk, rfl⟩ := List.mem_map.mp hc
    exact (digitChar_not_special (hi k hk)).2.2.1
  have hs := splitAtFirst_app (p := fun c => c == '.') (c := '.')
    (f.map Nat.digitChar) hnodot (by decide)
  simp only [parseMantissa, hs, readDigits?_map_digitChar hi,
    readDigits?_map_digitChar hf]
  simp [hne]

theorem parseExpPart_signed (v : Int) :
    parseExpPart ((if v < 0 then '-' else '+') :: digitChars v.natAbs) = some v := by
  have hds : ∀ x ∈ natDigitsBE v.natAbs, x < 10 := natDigitsBE_lt10 _
  have hne : natDigitsBE v.natAbs ≠ [] := natDigitsBE_ne_nil _
  by_cases hv : v < 0
  · simp [hv, parseExpPart, parseSign, digitChars,
      readDigits?_map_digitChar hds, hne, valBE_natDigitsBE]
    simp [abs_of_neg hv]
  · simp [hv, parseExpPart, parseSign, digitChars,
      readDigits?_map_digitChar hds, hne, valBE_natDigitsBE]
    omega

theorem noE_of_digits {l : List Nat} (h : ∀ d ∈ l, d < 10) :
    ∀ x ∈ l.map Nat.digitChar, ((x == 'E') || (x == 'e')) = false := by
  intro x hx
  obtain ⟨k, hk, rfl⟩ := List.mem_map.mp hx
  exact (digitChar_not_special (h k hk)).2.2.2

theorem noE_of_digits_dot {i f : List Nat} (hi : ∀ d ∈ i, d < 10)
    (hf : ∀ d ∈ f, d < 10) :
    ∀ x ∈ i.map Nat.digitChar ++ '.' :: f.map Nat.digitChar,
      ((x == 'E') || (x == 'e')) = false := by
  intro x hx
  rcases List.mem_append.mp hx with hx | hx
  · exact noE_of_digits hi x hx
  · rcases List.mem_cons.mp hx with rfl | hx
    · decide
    · exact noE_of_digits hf x hx

theorem parseSign_all_digits {x : List Nat} (hx : x ≠ []) (hlt : ∀ d ∈ x, d < 10)
    (y : List Char) :
    parseSign (x.map Nat.digitChar ++ y) = (1, x.map Nat.digitChar ++ y) := by
  cases x with
  | nil => exact absurd rfl hx
  | cons a t =>
    have ha : a < 10 := hlt a (List.mem_cons_self a t)
    obtain ⟨h1, h2, _, _⟩ := digitChar_not_special ha
    simp [parseSign, h1, h2]

theorem parseDecChars_noexp {full mant : List Char} {sgn : Int} {v fl : Nat}
    (hsgn : parseSign full = (sgn, mant))
    (hm : parseMantissa mant = some (v, fl))
    (hnE : ∀ x ∈ mant, ((x == 'E') || (x == 'e')) = false) :
    parseDecChars full = some ⟨sgn * (v : Int), -(fl : Int)⟩ := by
  simp only [parseDecChars, hsgn, splitAtFirst_none hnE, hm]

theorem parseDecChars_exp {full mantAll mant : List Char} {sgn : Int} {v fl : Nat}
    {ev : Int}
    (hsgn : parseSign full = (sgn, mantAll))
    (hma : mantAll = mant ++ 'E' :: (if ev < 0 then '-' else '+') :: digitChars ev.natAbs)
    (hm : parseMantissa mant = some (v, fl))
    (hnE : ∀ x ∈ mant, ((x == 'E') || (x == 'e')) = false) :
    parseDecChars full = some ⟨sgn * (v : Int), ev - (fl : Int)⟩ := by
  subst hma
  have hsplit := splitAtFirst_app (p := fun c => c == 'E' || c == 'e') (c := 'E')
    ((if ev < 0 then '-' else '+') :: digitChars ev.natAbs) hnE (by decide)
  simp only [parseDecChars, hsgn, hsplit, hm, parseExpPart_signed]

theorem parseSign_signed {x : List Nat} (hx : x ≠ []) (hlt : ∀ d ∈ x, d < 10)
    (y : List Char) (c : Int) :
    parseSign ((if c < 0 then ['-'] else []) ++ (x.map Nat.digitChar ++ y)) =
      ((if c < 0 then -1 else 1 : Int), x.map Nat.digitChar ++ y) := by
  by_cases hc : c < 0
  · simp only [hc, if_true, ite_true, List.singleton_append]
    simp [parseSign]
  · simp only [hc, if_false, ite_false, List.nil_append]
    exact parseSign_all_digits hx hlt y


theorem sign_mul_natAbs (c : Int) :
    (if c < 0 then -1 else 1 : Int) * (c.natAbs : Int) = c := by
  by_cases hc : c < 0
  · simp [hc, Int.natCast_natAbs, abs_of_neg hc]
  · simp [hc, Int.natCast_natAbs, abs_of_nonneg (not_lt.mp hc)]

/-- Round trip at the character level: parsing the printed form of a decimal
recovers exactly the same coefficient and exponent. -/
theorem parseDecChars_decToChars (d : Dec) :
    parseDecChars (decToChars d) = some d := by
  obtain ⟨c, e⟩ := d
  have hds := natDigitsBE_lt10 c.natAbs
  have hdsne := natDigitsBE_ne_nil c.natAbs
  have hlenN : 1 ≤ (natDigitsBE c.natAbs).length := List.length_pos.mpr hdsne
  have hlen1 : (1 : Int) ≤ ((natDigitsBE c.natAbs).length : Int) := by exact_mod_cast hlenN
  by_cases hN : e ≤ 0 ∧ -6 < e + ((natDigitsBE c.natAbs).length : Int)
  · by_cases hdp0 : e + ((natDigitsBE c.natAbs).length : Int) ≤ 0
    · -- leading zero integer part, pure fraction
      simp only [decToChars]
      rw [if_pos hN]
      rw [if_pos hdp0]
      rw [if_pos hdp0]
      rw [if_pos (Eq.refl (e + ((natDigitsBE c.natAbs).length : Int)))]
      simp only [List.append_nil, List.append_assoc]
      rw [show List.replicate (-(e + ((natDigitsBE c.natAbs).length : Int))).toNat '0' ++
            List.map Nat.digitChar (natDigitsBE c.natAbs) =
          List.map Nat.digitChar
            (List.replicate (-(e + ((natDigitsBE c.natAbs).length : Int))).toNat 0 ++
              natDigitsBE c.natAbs) from by
        rw [List.map_append, List.map_replicate]
        rfl]
      have hf : ∀ x ∈ List.replicate
          (-(e + ((natDigitsBE c.natAbs).length : Int))).toNat 0 ++ natDigitsBE c.natAbs,
          x < 10 := by
        intro x hx
        rcases List.mem_append.mp hx with hx | hx
        · rw [List.eq_of_mem_replicate hx]; norm_num
        · exact hds x hx
      have hm := parseMantissa_digits_dot (i := [0])
        (f := List.replicate (-(e + ((natDigitsBE c.natAbs).length : Int))).toNat 0 ++
          natDigitsBE c.natAbs) (by intro x hx; simp at hx; omega) hf (by simp)
      have hnE := noE_of_digits_dot (i := [0])
        (f := List.replicate (-(e + ((natDigitsBE c.natAbs).length : Int))).toNat 0 ++
          natDigitsBE c.natAbs) (by intro x hx; simp at hx; omega) hf
      have hsgn := parseSign_signed (x := [0]) (by simp)
        (by intro x hx; simp at hx; omega)
        ('.' :: List.map Nat.digitChar
          (List.replicate (-(e + ((natDigitsBE c.natAbs).length : Int))).toNat 0 ++
            natDigitsBE c.natAbs)) c
      have hres := parseDecChars_noexp hsgn hm hnE
      have hval : (⟨(if c < 0 then -1 else 1 : Int) *
              ((valBE ([0] ++ (List.replicate
                (-(e + ((natDigitsBE c.natAbs).length : Int))).toNat 0 ++
                natDigitsBE c.natAbs)) : Nat) : Int),
            -(((List.replicate (-(e + ((natDigitsBE c.natAbs).length : Int))).toNat 0 ++
                natDigitsBE c.natAbs).length : Nat) : Int)⟩ : Dec) = ⟨c, e⟩ := by
        rw [List.singleton_append, valBE_zero_cons, valBE_replicate_zero,
          valBE_natDigitsBE, sign_mul_natAbs, Dec.mk.injEq]
        refine ⟨rfl, ?_⟩
        simp only [List.length_append, List.length_replicate]
        push_cast
        omega
      show parseDecChars ((if c < 0 then ['-'] else []) ++
          (List.map Nat.digitChar [0] ++ '.' :: List.map Nat.digitChar
            (List.replicate (-(e + ((natDigitsBE c.natAbs).length : Int))).toNat 0 ++
              natDigitsBE c.natAbs))) = some ⟨c, e⟩
      rw [hres, hval]
    · -- integer part only, or fixed point with interior dot
      by_cases hle : ((natDigitsBE c.natAbs).length : Int) ≤
          e + ((natDigitsBE c.natAbs).length : Int)
      · -- exponent is exactly zero: plain digit string
        have he0 : e = 0 := by omega
        simp only [decToChars]
        rw [if_pos hN]
        rw [if_neg hdp0]
        rw [if_pos hle]
        rw [if_neg hdp0]
        rw [if_pos hle]
        rw [if_pos (Eq.refl (e + ((natDigitsBE c.natAbs).length : Int)))]
        have hz : (e + ((natDigitsBE c.natAbs).length : Int) -
            ((natDigitsBE c.natAbs).length : Int)).toNat = 0 := by omega
        rw [hz]
        simp only [List.replicate_zero, List.append_nil]
        have hsgn := parseSign_signed (x := natDigitsBE c.natAbs) hdsne hds [] c
        rw [List.append_nil] at hsgn
        have hres := parseDecChars_noexp hsgn (parseMantissa_digits hds hdsne)
          (noE_of_digits hds)
        rw [hres, valBE_natDigitsBE, sign_mul_natAbs]
        simp [he0]
      · -- strictly negative exponent with dot inside the digit string
        have hi : ∀ x ∈ (natDigitsBE c.natAbs).take
            (e + ((natDigitsBE c.natAbs).length : Int)).toNat, x < 10 :=
          fun x hx => hds x (List.take_subset _ _ hx)
        have hf : ∀ x ∈ (natDigitsBE c.natAbs).drop
            (e + ((natDigitsBE c.natAbs).length : Int)).toNat, x < 10 :=
          fun x hx => hds x (List.drop_subset _ _ hx)
        have htk : (natDigitsBE c.natAbs).take
            (e + ((natDigitsBE c.natAbs).length : Int)).toNat ≠ [] := by
          intro hcon
          rw [List.take_eq_nil_iff] at hcon
          rcases hcon with hcon | hcon
          · omega
          · exact hdsne hcon
        have hine : ¬((natDigitsBE c.natAbs).take
              (e + ((natDigitsBE c.natAbs).length : Int)).toNat = [] ∧
            (natDigitsBE c.natAbs).drop
              (e + ((natDigitsBE c.natAbs).length : Int)).toNat = []) :=
          fun hcon => htk hcon.1
        simp only [decToChars]
        rw [if_pos hN]
        rw [if_neg hdp0]
        rw [if_neg hle]
        rw [if_neg hdp0]
        rw [if_neg hle]
        rw [if_pos (Eq.refl (e + ((natDigitsBE c.natAbs).length : Int)))]
        simp only [List.append_nil, List.append_assoc]
        have hm := parseMantissa_digits_dot hi hf hine
        rw [List.take_append_drop, valBE_natDigitsBE] at hm
        have hnE := noE_of_digits_dot hi hf
        have hsgn := parseSign_signed (x := (natDigitsBE c.natAbs).take
            (e + ((natDigitsBE c.natAbs).length : Int)).toNat) htk hi
          ('.' :: List.map Nat.digitChar ((natDigitsBE c.natAbs).drop
            (e + ((natDigitsBE c.natAbs).length : Int)).toNat)) c
        have hres := parseDecChars_noexp hsgn hm hnE
        rw [hres, sign_mul_natAbs]
        simp only [List.length_drop, Option.some.injEq, Dec.mk.injEq]
        refine ⟨trivial, ?_⟩
        omega
  · -- scientific notation
    have hL1 : ¬(e + ((natDigitsBE c.natAbs).length : Int) = 1) := by
      rcases not_and_or.mp hN with h | h <;> omega
    by_cases hl1 : ((natDigitsBE c.natAbs).length : Int) ≤ 1
    · -- single digit, no dot
      simp only [decToChars]
      rw [if_neg hN]
      rw [if_neg (by norm_num : ¬(1:Int) ≤ 0)]
      rw [if_pos hl1]
      rw [if_neg (by norm_num : ¬(1:Int) ≤ 0)]
      rw [if_pos hl1]
      rw [if_neg hL1]
      have hz : ((1:Int) - ((natDigitsBE c.natAbs).length : Int)).toNat = 0 := by omega
      rw [hz]
      simp only [List.replicate_zero, List.append_nil, List.append_assoc]
      have hsgn := parseSign_signed (x := natDigitsBE c.natAbs) hdsne hds
        ('E' :: (if e + ((natDigitsBE c.natAbs).length : Int) - 1 < 0 then '-' else '+') ::
          digitChars (e + ((natDigitsBE c.natAbs).length : Int) - 1).natAbs) c
      have hres := parseDecChars_exp hsgn rfl (parseMantissa_digits hds hdsne)
        (noE_of_digits hds)
      rw [hres, valBE_natDigitsBE, sign_mul_natAbs]
      simp only [Option.some.injEq, Dec.mk.injEq]
      refine ⟨trivial, ?_⟩
      omega
    · -- several digits, dot after the first one
      have hi : ∀ x ∈ (natDigitsBE c.natAbs).take 1, x < 10 :=
        fun x hx => hds x (List.take_subset _ _ hx)
      have hf : ∀ x ∈ (natDigitsBE c.natAbs).drop 1, x < 10 :=
        fun x hx => hds x (List.drop_subset _ _ hx)
      have htk : (natDigitsBE c.natAbs).take 1 ≠ [] := by
        intro hcon
        rw [List.take_eq_nil_iff] at hcon
        rcases hcon with hcon | hcon
        · exact absurd hcon (by norm_num)
        · exact hdsne hcon
      have hine : ¬((natDigitsBE c.natAbs).take 1 = [] ∧
          (natDigitsBE c.natAbs).drop 1 = []) := fun hcon => htk hcon.1
      simp only [decToChars]
      rw [if_neg hN]
      rw [if_neg (by norm_num : ¬(1:Int) ≤ 0)]
      rw [if_neg hl1]
      rw [if_neg (by norm_num : ¬(1:Int) ≤ 0)]
      rw [if_neg hl1]
      rw [if_neg hL1]
      rw [show ((1:Int)).toNat = 1 from rfl]
      simp only [List.append_assoc]
      have hm := parseMantissa_digits_dot hi hf hine
      rw [List.take_append_drop, valBE_natDigitsBE] at hm
      have hnE := noE_of_digits_dot hi hf
      have hsgn := parseSign_signed (x := (natDigitsBE c.natAbs).take 1) htk hi
        ('.' :: List.map Nat.digitChar ((natDigitsBE c.natAbs).drop 1) ++
          'E' :: (if e + ((natDigitsBE c.natAbs).length : Int) - 1 < 0 then '-' else '+') ::
            digitChars (e + ((natDigitsBE c.natAbs).length : Int) - 1).natAbs) c
      have hma : List.map Nat.digitChar ((natDigitsBE c.natAbs).take 1) ++
          ('.' :: List.map Nat.digitChar ((natDigitsBE c.natAbs).drop 1) ++
            'E' :: (if e + ((natDigitsBE c.natAbs).length : Int) - 1 < 0 then '-' else '+') ::
              digitChars (e + ((natDigitsBE c.natAbs).length : Int) - 1).natAbs) =
          (List.map Nat.digitChar ((natDigitsBE c.natAbs).take 1) ++
            '.' :: List.map Nat.digitChar ((natDigitsBE c.natAbs).drop 1)) ++
            'E' :: (if e + ((natDigitsBE c.natAbs).length : Int) - 1 < 0 then '-' else '+') ::
              digitChars (e + ((natDigitsBE c.natAbs).length : Int) - 1).natAbs := by
        simp [List.append_assoc]
      have hres := parseDecChars_exp hsgn hma hm hnE
      rw [hres, sign_mul_natAbs]
      simp only [List.length_drop, Option.some.injEq, Dec.mk.injEq]
      refine ⟨trivial, ?_⟩
      omega

/-- Precision round trip: parsing the printed form of any decimal with
`Decimal(str(d))` gives back exactly the same decimal. -/
theorem decOfString_decToString (d : Dec) : decOfString (decToString d) = some d :=
  parseDecChars_decToChars d

/-!
Order properties of the lexicographic string comparison, and the resulting
total-preorder structure of the aggregation sort key.
-/

theorem decAdd_comm (a b : Dec) : decAdd a b = decAdd b a := by
  unfold decAdd
  rw [Dec.mk.injEq]
  constructor
  · rw [min_comm]; ring
  · rw [min_comm]

theorem pow_toNat_combine {M m e : Int} (h1 : M ≤ m) (h2 : m ≤ e) :
    (10:Int) ^ (e - m).toNat * 10 ^ (m - M).toNat = 10 ^ (e - M).toNat := by
  rw [← pow_add]
  congr 1
  omega

theorem decAdd_assoc (a b c : Dec) : decAdd (decAdd a b) c = decAdd a (decAdd b c) := by
  have hM : min (min a.exp b.exp) c.exp = min a.exp (min b.exp c.exp) :=
    min_assoc a.exp b.exp c.exp
  unfold decAdd
  rw [Dec.mk.injEq]
  refine ⟨?_, hM⟩
  simp only
  have e1 := pow_toNat_combine (e := a.exp)
    (min_le_left (min a.exp b.exp) c.exp) (min_le_left a.exp b.exp)
  have e2 := pow_toNat_combine (e := b.exp)
    (min_le_left (min a.exp b.exp) c.exp) (min_le_right a.exp b.exp)
  have e3 := pow_toNat_combine (e := b.exp)
    (min_le_right a.exp (min b.exp c.exp)) (min_le_left b.exp c.exp)
  have e4 := pow_toNat_combine (e := c.exp)
    (min_le_right a.exp (min b.exp c.exp)) (min_le_right b.exp c.exp)
  simp only [add_mul, mul_assoc]
  rw [e1, e2, e3, e4, hM]
  ring

theorem decAdd_right_comm (x a b : Dec) :
    decAdd (decAdd x a) b = decAdd (decAdd x b) a := by
  rw [decAdd_assoc, decAdd_assoc, decAdd_comm a b]

theorem foldl_decAdd_perm {l₁ l₂ : List Dec} (h : l₁.Perm l₂) (init : Dec) :
    l₁.foldl decAdd init = l₂.foldl decAdd init :=
  h.foldl_eq' (fun x _ y _ z => decAdd_right_comm z x y) init

theorem string_ext {s t : String} (h : s.toList = t.toList) : s = t := by
  cases s
  cases t
  simp only [String.toList] at h
  rw [h]

theorem lexLtB_irrefl : ∀ l : List Char, lexLtB l l = false := by
  intro l
  induction l with
  | nil => rfl
  | cons a t ih => simp [lexLtB, ih]

theorem lexLtB_asymm : ∀ {l₁ l₂ : List Char},
    lexLtB l₁ l₂ = true → lexLtB l₂ l₁ = false := by
  intro l₁
  induction l₁ with
  | nil =>
    intro l₂ h
    cases l₂ with
    | nil => simpa [lexLtB] using h
    | cons b t => simp [lexLtB]
  | cons a t ih =>
    intro l₂ h
    cases l₂ with
    | nil => simpa [lexLtB] using h
    | cons b u =>
      simp only [lexLtB] at h ⊢
      by_cases h1 : a.toNat < b.toNat
      · simp only [h1, if_true, ite_true] at h ⊢
        have h2 : ¬ b.toNat < a.toNat := by omega
        simp [h2, h1]
      · by_cases h2 : b.toNat < a.toNat
        · simp [h1, h2] at h
        · simp only [h1, h2, if_false, ite_false] at h ⊢
          exact ih h

theorem lexLtB_trans : ∀ {l₁ l₂ l₃ : List Char},
    lexLtB l₁ l₂ = true → lexLtB l₂ l₃ = true → lexLtB l₁ l₃ = true := by
  intro l₁
  induction l₁ with
  | nil =>
    intro l₂ l₃ h12 h23
    cases l₂ with
    | nil => simpa [lexLtB] using h12
    | cons b u =>
      cases l₃ with
      | nil => simpa [lexLtB] using h23
      | cons c v => simp [lexLtB]
  | cons a t ih =>
    intro l₂ l₃ h12 h23
    cases l₂ with
    | nil => simpa [lexLtB] using h12
    | cons b u =>
      cases l₃ with
      | nil => simpa [lexLtB] using h23
      | cons c v =>
        simp only [lexLtB] at h12 h23 ⊢
        by_cases hab : a.toNat < b.toNat
        · by_cases hbc : b.toNat < c.toNat
          · have : a.toNat < c.toNat := by omega
            simp [this]
          · by_cases hcb : c.toNat < b.toNat
            · simp [hbc, hcb] at h23
            · have : b.toNat = c.toNat := by omega
              have : a.toNat < c.toNat := by omega
              simp [this]
        · by_cases hba : b.toNat < a.toNat
          · simp [hab, hba] at h12
          · have heq : a.toNat = b.toNat := by omega
            by_cases hbc : b.toNat < c.toNat
            · have : a.toNat < c.toNat := by omega
              simp [this]
            · by_cases hcb : c.toNat < b.toNat
              · simp [hbc, hcb] at h23
              · have h1 : ¬ a.toNat < c.toNat := by omega
                have h2 : ¬ c.toNat < a.toNat := by omega
                simp only [hab, hba, if_false, ite_false] at h12
                simp only [hbc, hcb, if_false, ite_false] at h23
                simp only [h1, h2, if_false, ite_false]
                exact ih h12 h23

theorem lexLtB_conn : ∀ {l₁ l₂ : List Char},
    lexLtB l₁ l₂ = false → lexLtB l₂ l₁ = false → l₁ = l₂ := by
  intro l₁
  induction l₁ with
  | nil =>
    intro l₂ h12 _
    cases l₂ with
    | nil => rfl
    | cons b u => simp [lexLtB] at h12
  | cons a t ih =>
    intro l₂ h12 h21
    cases l₂ with
    | nil => simp [lexLtB] at h21
    | cons b u =>
      simp only [lexLtB] at h12 h21
      by_cases hab : a.toNat < b.toNat
      · simp [hab] at h12
      · by_cases hba : b.toNat < a.toNat
        · simp [hab, hba] at h21
        · simp only [hab, hba, if_false, ite_false] at h12 h21
          have : a = b := char_toNat_inj (by omega)
          rw [this, ih h12 h21]

theorem strLtB_asymm {s t : String} (h : strLtB s t = true) : strLtB t s = false :=
  lexLtB_asymm h

theorem strLtB_trans {s t u : String} (h1 : strLtB s t = true)
    (h2 : strLtB t u = true) : strLtB s u = true :=
  lexLtB_trans h1 h2

theorem strLtB_conn {s t : String} (h1 : strLtB s t = false)
    (h2 : strLtB t s = false) : s = t :=
  string_ext (lexLtB_conn h1 h2)

theorem strLtB_irrefl (s : String) : strLtB s s = false := lexLtB_irrefl _

instance : IsTotal AggregatedTransaction aggLe := by
  constructor
  intro a b
  by_cases h1 : strLtB a.isin b.isin = true
  · exact Or.inl (Or.inl h1)
  · by_cases h2 : strLtB b.isin a.isin = true
    · exact Or.inr (Or.inl h2)
    · have he : a.isin = b.isin :=
        strLtB_conn (Bool.not_eq_true _ ▸ h1 : strLtB a.isin b.isin = false)
          (Bool.not_eq_true _ ▸ h2)
      by_cases h3 : strLtB b.transaction_type a.transaction_type = true
      · exact Or.inr (Or.inr ⟨he.symm, by
          simp only [strLeB, Bool.not_eq_true']
          exact strLtB_asymm h3⟩)
      · exact Or.inl (Or.inr ⟨he, by
          simp only [strLeB]
          simp only [Bool.not_eq_true] at h3
          simp [h3]⟩)

instance : IsTrans AggregatedTransaction aggLe := by
  constructor
  intro a b c hab hbc
  rcases hab with hab | ⟨hab1, hab2⟩
  · rcases hbc with hbc | ⟨hbc1, hbc2⟩
    · exact Or.inl (strLtB_trans hab hbc)
    · exact Or.inl (hbc1 ▸ hab)
  · rcases hbc with hbc | ⟨hbc1, hbc2⟩
    · exact Or.inl (hab1 ▸ hbc)
    · refine Or.inr ⟨hab1.trans hbc1, ?_⟩
      simp only [strLeB, Bool.not_eq_true'] at hab2 hbc2 ⊢
      by_cases h : strLtB c.transaction_type a.transaction_type = true
      · by_cases hbc3 : strLtB b.transaction_type c.transaction_type = true
        · have := strLtB_trans hbc3 h
          simp [this] at hab2
        · have heq : b.transaction_type = c.transaction_type :=
            strLtB_conn (by simpa using hbc3) hbc2
          rw [← heq] at h
          simp [h] at hab2
      · simpa using h

instance : IsAntisymm AggregatedTransaction aggKeyLt := by
  constructor
  intro a b hab hba
  exfalso
  rcases hab with hab | ⟨hab1, hab2⟩
  · rcases hba with hba | ⟨hba1, hba2⟩
    · rw [strLtB_asymm hab] at hba
      exact Bool.false_ne_true hba
    · rw [hba1, strLtB_irrefl] at hab
      exact Bool.false_ne_true hab
  · rcases hba with hba | ⟨hba1, hba2⟩
    · rw [hab1, strLtB_irrefl] at hba
      exact Bool.false_ne_true hba
    · rw [strLtB_asymm hab2] at hba2
      exact Bool.false_ne_true hba2

theorem foldl_updAccum (ts : List Transaction) : ∀ e : GroupAccum,
    ts.foldl updAccum e =
      ⟨ts.foldl (fun _ t => t.product_name) e.product_name,
        ts.foldl (fun acc t => decAdd acc t.quantity) e.total_quantity,
        ts.foldl (fun acc t => decAdd acc t.amount_euros) e.total_amount_euros,
        e.count + ts.length⟩ := by
  induction ts with
  | nil => intro e; simp
  | cons a t ih =>
    intro e
    simp only [List.foldl_cons, ih, updAccum, List.length_cons]
    congr 1
    omega

theorem find?_map_update_ne (g : List ((String × String) × GroupAccum))
    (t : Transaction) (k : String × String) (hk : ¬ txnKey t = k) :
    (g.map (fun p => if p.1 = txnKey t then (p.1, updAccum p.2 t) else p)).find?
        (fun p => p.1 = k) =
      g.find? (fun p => p.1 = k) := by
  induction g with
  | nil => rfl
  | cons q u ih =>
    by_cases hq : q.1 = txnKey t
    · have hqk : ¬ q.1 = k := by rw [hq]; exact hk
      simp only [List.map_cons, hq, if_true, ite_true, List.find?_cons]
      simp [hk, hqk, ih]
    · simp only [List.map_cons, hq, if_false, ite_false, List.find?_cons]
      by_cases hqk : q.1 = k
      · simp [hqk]
      · simp [hqk, ih]

theorem find?_map_update_eq (g : List ((String × String) × GroupAccum))
    (t : Transaction) :
    (g.map (fun p => if p.1 = txnKey t then (p.1, updAccum p.2 t) else p)).find?
        (fun p => p.1 = txnKey t) =
      (g.find? (fun p => p.1 = txnKey t)).map (fun p => (p.1, updAccum p.2 t)) := by
  induction g with
  | nil => rfl
  | cons q u ih =>
    by_cases hq : q.1 = txnKey t
    · simp [List.map_cons, hq, List.find?_cons]
    · simp only [List.map_cons, hq, if_false, ite_false, List.find?_cons]
      simp [hq, ih]

theorem groupLookup_upsert_ne (g : List ((String × String) × GroupAccum))
    (t : Transaction) (k : String × String) (hk : ¬ txnKey t = k) :
    groupLookup (upsert g t) k = groupLookup g k := by
  unfold upsert groupLookup
  by_cases hp : (g.find? (fun p => p.1 = txnKey t)).isSome
  · rw [if_pos hp, find?_map_update_ne g t k hk]
  · rw [if_neg hp, List.find?_append]
    have : List.find? (fun p => p.1 = k) [(txnKey t, updAccum emptyAccum t)] = none := by
      simp [List.find?, hk]
    rw [this, Option.or_none]

theorem groupLookup_upsert_eq (g : List ((String × String) × GroupAccum))
    (t : Transaction) :
    groupLookup (upsert g t) (txnKey t) =
      match groupLookup g (txnKey t) with
      | some acc => some (updAccum acc t)
      | none => some (updAccum emptyAccum t) := by
  unfold upsert groupLookup
  by_cases hp : (g.find? (fun p => p.1 = txnKey t)).isSome
  · rw [if_pos hp, find?_map_update_eq g t]
    obtain ⟨q, hq⟩ := Option.isSome_iff_exists.mp hp
    simp [hq]
  · rw [if_neg hp, List.find?_append]
    have hnone : g.find? (fun p => p.1 = txnKey t) = none :=
      Option.not_isSome_iff_eq_none.mp hp
    simp [hnone, List.find?]

theorem buildGroups_append (l : List Transaction) (t : Transaction) :
    buildGroups (l ++ [t]) = upsert (buildGroups l) t := by
  simp [buildGroups, List.foldl_append]

theorem buildGroups_lookup (l : List Transaction) (k : String × String) :
    groupLookup (buildGroups l) k =
      if l.filter (fun t => txnKey t = k) = [] then none
      else some ((l.filter (fun t => txnKey t = k)).foldl updAccum emptyAccum) := by
  induction l using List.reverseRecOn with
  | nil => simp [buildGroups, groupLookup]
  | append_singleton l t ih =>
    rw [buildGroups_append, List.filter_append]
    by_cases hk : txnKey t = k
    · have hft : List.filter (fun t => decide (txnKey t = k)) [t] = [t] := by
        simp [List.filter, hk]
      rw [hft]
      have hne : ¬ (List.filter (fun t => decide (txnKey t = k)) l ++ [t] = []) := by
        simp
      rw [if_neg hne, ← hk, groupLookup_upsert_eq, hk, ih]
      by_cases hfl : List.filter (fun t => decide (txnKey t = k)) l = []
      · rw [if_pos hfl, hfl]
        simp
      · rw [if_neg hfl]
        simp [List.foldl_append]
    · have hft : List.filter (fun t => decide (txnKey t = k)) [t] = [] := by
        simp [List.filter, hk]
      rw [hft, List.append_nil, groupLookup_upsert_ne _ _ _ hk, ih]

theorem upsert_keys (g : List ((String × String) × GroupAccum)) (t : Transaction) :
    (upsert g t).map Prod.fst = g.map Prod.fst ∨
      ((upsert g t).map Prod.fst = g.map Prod.fst ++ [txnKey t] ∧
        txnKey t ∉ g.map Prod.fst) := by
  unfold upsert
  by_cases hp : (g.find? (fun p => p.1 = txnKey t)).isSome
  · left
    rw [if_pos hp, List.map_map]
    apply List.map_congr_left
    intro p _
    by_cases h : p.1 = txnKey t <;> simp [h]
  · right
    rw [if_neg hp]
    constructor
    · simp
    · have hnone : g.find? (fun p => p.1 = txnKey t) = none :=
        Option.not_isSome_iff_eq_none.mp hp
      rw [List.find?_eq_none] at hnone
      intro hmem
      obtain ⟨p, hp2, hp3⟩ := List.mem_map.mp hmem
      exact absurd (by simpa using hp3) (by simpa using hnone p hp2)

theorem buildGroups_keys_nodup (l : List Transaction) :
    ((buildGroups l).map Prod.fst).Nodup := by
  induction l using List.reverseRecOn with
  | nil => simp [buildGroups]
  | append_singleton l t ih =>
    rw [buildGroups_append]
    rcases upsert_keys (buildGroups l) t with h | ⟨h1, h2⟩
    · rw [h]; exact ih
    · rw [h1]
      simp only [List.nodup_append, List.nodup_cons, List.nodup_nil]
      exact ⟨ih, by simp, by simpa using h2⟩

theorem mem_iff_groupLookup {g : List ((String × String) × GroupAccum)}
    (hg : (g.map Prod.fst).Nodup) (k : String × String) (v : GroupAccum) :
    (k, v) ∈ g ↔ groupLookup g k = some v := by
  induction g with
  | nil => simp [groupLookup]
  | cons q u ih =>
    simp only [List.map_cons, List.nodup_cons] at hg
    obtain ⟨hq1, hq2⟩ := hg
    by_cases hk : q.1 = k
    · have hknotin : (k, v) ∉ u := by
        intro hmem
        exact hq1 (hk ▸ List.mem_map.mpr ⟨(k, v), hmem, rfl⟩)
      have hd : (decide (q.1 = k)) = true := by simp [hk]
      simp only [groupLookup, List.find?_cons, hd, Option.map_some]
      simp only [List.mem_cons, hknotin, or_false, Option.some.injEq]
      constructor
      · intro h
        rw [← h]
        rfl
      · intro h
        obtain ⟨q1, q2⟩ := q
        simp only at hk h
        have h2 : q2 = v := by simpa using h
        rw [hk, h2]
    · have hd : (decide (q.1 = k)) = false := by simp [hk]
      simp only [groupLookup, List.find?_cons, hd]
      constructor
      · intro h
        rcases List.mem_cons.mp h with h | h
        · exact absurd (congrArg Prod.fst h.symm) hk
        · exact (ih hq2).mp h
      · intro h
        exact List.mem_cons_of_mem _ ((ih hq2).mpr h)

theorem foldl_pn_const {ts : List Transaction} {pnv : String}
    (h : ∀ t ∈ ts, t.product_name = pnv) (hne : ts ≠ []) (d : String) :
    ts.foldl (fun _ t => t.product_name) d = pnv := by
  induction ts generalizing d with
  | nil => exact absurd rfl hne
  | cons a rest ih =>
    simp only [List.foldl_cons]
    by_cases hr : rest = []
    · subst hr
      simpa using h a (by simp)
    · exact ih (fun t ht => h t (List.mem_cons_of_mem a ht)) hr _

theorem stats_perm {ts₁ ts₂ : List Transaction} (hperm : ts₁.Perm ts₂)
    (hpn : ∀ t₁ ∈ ts₁, ∀ t₂ ∈ ts₁, t₁.product_name = t₂.product_name) :
    ts₁.foldl updAccum emptyAccum = ts₂.foldl updAccum emptyAccum := by
  rw [foldl_updAccum, foldl_updAccum]
  have hq : ts₁.foldl (fun acc t => decAdd acc t.quantity) emptyAccum.total_quantity =
      ts₂.foldl (fun acc t => decAdd acc t.quantity) emptyAccum.total_quantity :=
    hperm.foldl_eq' (fun x _ y _ z => decAdd_right_comm z x.quantity y.quantity) _
  have ha : ts₁.foldl (fun acc t => decAdd acc t.amount_euros) emptyAccum.total_amount_euros =
      ts₂.foldl (fun acc t => decAdd acc t.amount_euros) emptyAccum.total_amount_euros :=
    hperm.foldl_eq' (fun x _ y _ z => decAdd_right_comm z x.amount_euros y.amount_euros) _
  have hl : ts₁.length = ts₂.length := hperm.length_eq
  cases ts₁ with
  | nil =>
    have h2 : ts₂ = [] := hperm.symm.eq_nil
    subst h2
    rfl
  | cons a rest =>
    have hne₁ : (a :: rest) ≠ ([] : List Transaction) := by simp
    have hne₂ : ts₂ ≠ [] := by
      intro hcon
      subst hcon
      simpa using hperm.eq_nil
    have hmem₁ : ∀ t ∈ a :: rest, t.product_name = a.product_name :=
      fun t ht => hpn t ht a (by simp)
    have hmem₂ : ∀ t ∈ ts₂, t.product_name = a.product_name :=
      fun t ht => hpn t (hperm.mem_iff.mpr ht) a (by simp)
    simp only [GroupAccum.mk.injEq]
    exact ⟨by rw [foldl_pn_const hmem₁ hne₁, foldl_pn_const hmem₂ hne₂], hq, ha,
      by rw [hl]⟩

theorem buildGroups_lookup_perm {l₁ l₂ : List Transaction} (h : l₁.Perm l₂)
    (hwf : pnCoherent l₁) (k : String × String) :
    groupLookup (buildGroups l₁) k = groupLookup (buildGroups l₂) k := by
  rw [buildGroups_lookup, buildGroups_lookup]
  have hfp : (l₁.filter (fun t => txnKey t = k)).Perm
      (l₂.filter (fun t => txnKey t = k)) := h.filter _
  by_cases hf : l₁.filter (fun t => decide (txnKey t = k)) = []
  · rw [if_pos hf]
    have hf₂ : l₂.filter (fun t => decide (txnKey t = k)) = [] := by
      rw [hf] at hfp
      exact hfp.symm.eq_nil
    rw [if_pos hf₂]
  · have hf₂ : ¬ l₂.filter (fun t => decide (txnKey t = k)) = [] := by
      intro hcon
      rw [hcon] at hfp
      exact hf hfp.eq_nil
    rw [if_neg hf, if_neg hf₂]
    congr 1
    apply stats_perm hfp
    intro t₁ h₁ t₂ h₂
    obtain ⟨m₁, k₁⟩ := List.mem_filter.mp h₁
    obtain ⟨m₂, k₂⟩ := List.mem_filter.mp h₂
    have k₁' : txnKey t₁ = k := by simpa using k₁
    have k₂' : txnKey t₂ = k := by simpa using k₂
    exact hwf t₁ m₁ t₂ m₂ (k₁'.trans k₂'.symm)

theorem buildGroups_perm {l₁ l₂ : List Transaction} (h : l₁.Perm l₂)
    (hwf : pnCoherent l₁) : (buildGroups l₁).Perm (buildGroups l₂) := by
  have h₁ := buildGroups_keys_nodup l₁
  have h₂ := buildGroups_keys_nodup l₂
  rw [List.perm_ext_iff_of_nodup h₁.of_map h₂.of_map]
  intro p
  obtain ⟨k, v⟩ := p
  rw [mem_iff_groupLookup h₁, mem_iff_groupLookup h₂,
    buildGroups_lookup_perm h hwf]

theorem sorted_keyLt_of_sorted_le {s : List AggregatedTransaction}
    (hs : s.Sorted aggLe) (hn : (s.map aggKey).Nodup) : s.Sorted aggKeyLt := by
  have hne : s.Pairwise (fun a b => aggKey a ≠ aggKey b) := List.pairwise_map.mp hn
  refine (hs.and hne).imp ?_
  rintro a b ⟨hle, hkne⟩
  rcases hle with h | ⟨h1, h2⟩
  · exact Or.inl h
  · refine Or.inr ⟨h1, ?_⟩
    by_cases h3 : strLtB a.transaction_type b.transaction_type = true
    · exact h3
    · exfalso
      have heq : a.transaction_type = b.transaction_type :=
        strLtB_conn (by simpa using h3) (by simpa [strLeB] using h2)
      exact hkne (by unfold aggKey; rw [h1, heq])

theorem aggKey_toAgg (p : (String × String) × GroupAccum) : aggKey (toAgg p) = p.1 := rfl

theorem aggregate_keys_nodup (l : List Transaction) :
    (((buildGroups l).map toAgg).map aggKey).Nodup := by
  rw [List.map_map]
  have hc : (aggKey ∘ toAgg) = (Prod.fst : (String × String) × GroupAccum → String × String) :=
    funext (fun p => rfl)
  rw [hc]
  exact buildGroups_keys_nodup l

theorem aggregate_transactions_eq_of_perm {l₁ l₂ : List Transaction}
    (h : l₁.Perm l₂) (hwf : pnCoherent l₁) :
    aggregate_transactions l₁ = aggregate_transactions l₂ := by
  have hm : ((buildGroups l₁).map toAgg).Perm ((buildGroups l₂).map toAgg) :=
    (buildGroups_perm h hwf).map toAgg
  have hperm : (aggregate_transactions l₁).Perm (aggregate_transactions l₂) :=
    ((List.perm_insertionSort aggLe _).trans hm).trans
      (List.perm_insertionSort aggLe _).symm
  have hk₁ : ((aggregate_transactions l₁).map aggKey).Nodup :=
    (((List.perm_insertionSort aggLe _).map aggKey).nodup_iff).mpr
      (aggregate_keys_nodup l₁)
  have hk₂ : ((aggregate_transactions l₂).map aggKey).Nodup :=
    (((List.perm_insertionSort aggLe _).map aggKey).nodup_iff).mpr
      (aggregate_keys_nodup l₂)
  exact List.eq_of_perm_of_sorted hperm
    (sorted_keyLt_of_sorted_le (List.sorted_insertionSort aggLe _) hk₁)
    (sorted_keyLt_of_sorted_le (List.sorted_insertionSort aggLe _) hk₂)

theorem mem_aggregate_iff (l : List Transaction) (g : AggregatedTransaction) :
    g ∈ aggregate_transactions l ↔
      (l.filter (fun t => txnKey t = aggKey g) ≠ [] ∧
        g = toAgg (aggKey g,
          (l.filter (fun t => txnKey t = aggKey g)).foldl updAccum emptyAccum)) := by
  unfold aggregate_transactions
  rw [List.mem_insertionSort]
  constructor
  · intro hmem
    obtain ⟨p, hp, hpg⟩ := List.mem_map.mp hmem
    have hkey : p.1 = aggKey g := by rw [← hpg]; exact (aggKey_toAgg p).symm
    have hlp : groupLookup (buildGroups l) p.1 = some p.2 :=
      (mem_iff_groupLookup (buildGroups_keys_nodup l) p.1 p.2).mp hp
    rw [buildGroups_lookup, hkey] at hlp
    by_cases hf : l.filter (fun t => decide (txnKey t = aggKey g)) = []
    · rw [if_pos hf] at hlp
      exact absurd hlp (by simp)
    · rw [if_neg hf] at hlp
      refine ⟨hf, ?_⟩
      have hp2 : p.2 = (l.filter (fun t => decide (txnKey t = aggKey g))).foldl
          updAccum emptyAccum := by
        injection hlp.symm
      have hpeta : p = (aggKey g, (l.filter
          (fun t => decide (txnKey t = aggKey g))).foldl updAccum emptyAccum) := by
        rw [← hp2, ← hkey]
      rw [← hpg, hpeta]
      simp [aggKey_toAgg]
  · rintro ⟨hne, hg⟩
    apply List.mem_map.mpr
    refine ⟨(aggKey g,
      (l.filter (fun t => txnKey t = aggKey g)).foldl updAccum emptyAccum),
      ?_, hg.symm⟩
    apply (mem_iff_groupLookup (buildGroups_keys_nodup l) _ _).mpr
    rw [buildGroups_lookup, if_neg hne]

/-!
Lemmas about `firstIdx` and `pyStrip`, leading to the equivalence of the
stripped slice computed by `_extract_json` with the bracket substring of the
raw text.
-/

theorem firstIdx_eq_none_iff (p : Char → Bool) : ∀ l : List Char,
    firstIdx p l = none ↔ ∀ c ∈ l, p c = false := by
  intro l
  induction l with
  | nil => simp [firstIdx]
  | cons a t ih =>
    by_cases ha : p a
    · simp [firstIdx, ha]
    · have ha' : p a = false := by simpa using ha
      simp only [firstIdx, ha']
      constructor
      · intro h c hc
        rcases List.mem_cons.mp hc with rfl | hc
        · exact ha'
        · refine (ih.mp ?_) c hc
          exact Option.map_eq_none'.mp h
      · intro h
        rw [Option.map_eq_none']
        exact ih.mpr (fun c hc => h c (List.mem_cons_of_mem a hc))

theorem firstIdx_isSome_of_mem {p : Char → Bool} {l : List Char} {c : Char}
    (hc : c ∈ l) (hp : p c = true) : (firstIdx p l).isSome = true := by
  induction l with
  | nil => simp at hc
  | cons a t ih =>
    by_cases ha : p a
    · simp [firstIdx, ha]
    · have ha' : p a = false := by simpa using ha
      rcases List.mem_cons.mp hc with rfl | hc2
      · exact absurd hp (by simpa using ha)
      · simp only [firstIdx, ha']
        obtain ⟨j, hj⟩ := Option.isSome_iff_exists.mp (ih hc2)
        simp [hj]

theorem firstIdx_lt_length {p : Char → Bool} : ∀ {l : List Char} {s : Nat},
    firstIdx p l = some s → s < l.length := by
  intro l
  induction l with
  | nil => intro s h; simp [firstIdx] at h
  | cons a t ih =>
    intro s h
    by_cases ha : p a
    · simp only [firstIdx, ha, Option.some.injEq] at h
      simp [← h]
    · have ha' : p a = false := by simpa using ha
      simp only [firstIdx, ha'] at h
      obtain ⟨j, hj, hjs⟩ := Option.map_eq_some'.mp h
      have := ih hj
      simp only [List.length_cons]
      omega

theorem firstIdx_append_of_none {p : Char → Bool} {a : List Char}
    (ha : ∀ c ∈ a, p c = false) (b : List Char) :
    firstIdx p (a ++ b) = (firstIdx p b).map (· + a.length) := by
  induction a with
  | nil => simp [Option.map_id']
  | cons x t ih =>
    have hx : p x = false := ha x (List.mem_cons_self x t)
    have ht : ∀ c ∈ t, p c = false := fun c hc => ha c (List.mem_cons_of_mem x hc)
    rw [List.cons_append]
    show (match p x with
      | true => some 0
      | false => (firstIdx p (t ++ b)).map (· + 1)) =
      (firstIdx p b).map (· + (x :: t).length)
    rw [hx, ih ht, Option.map_map]
    cases firstIdx p b with
    | none => rfl
    | some j =>
      simp only [Option.map_some, Function.comp, List.length_cons]
      congr 1

theorem firstIdx_append_of_found {p : Char → Bool} {a : List Char} {s : Nat}
    (ha : firstIdx p a = some s) (b : List Char) :
    firstIdx p (a ++ b) = some s := by
  induction a generalizing s with
  | nil => simp [firstIdx] at ha
  | cons x t ih =>
    by_cases hx : p x
    · simp only [firstIdx, hx, Option.some.injEq] at ha
      simp [firstIdx, hx, ha]
    · have hx2 : p x = false := by simpa using hx
      simp only [firstIdx, hx2] at ha
      obtain ⟨j, hj, hjs⟩ := Option.map_eq_some'.mp ha
      rw [List.cons_append]
      show (match p x with
        | true => some 0
        | false => (firstIdx p (t ++ b)).map (· + 1)) = some s
      rw [hx2, ih hj, ← hjs]
      rfl

theorem pyStrip_decomp (l : List Char) :
    ∃ p q, l = p ++ pyStrip l ++ q ∧ (∀ c ∈ p, pyWs c = true) ∧
      (∀ c ∈ q, pyWs c = true) := by
  refine ⟨l.takeWhile pyWs, ((l.dropWhile pyWs).reverse.takeWhile pyWs).reverse,
    ?_, ?_, ?_⟩
  · conv_lhs => rw [← List.takeWhile_append_dropWhile (p := pyWs) (l := l)]
    rw [List.append_assoc]
    congr 1
    unfold pyStrip
    conv_lhs => rw [← List.reverse_reverse (l.dropWhile pyWs),
      ← List.takeWhile_append_dropWhile (p := pyWs) (l := (l.dropWhile pyWs).reverse)]
    rw [List.reverse_append]
  · exact fun c hc => List.mem_takeWhile_imp hc
  · intro c hc
    exact List.mem_takeWhile_imp (List.mem_reverse.mp hc)

theorem bracketSub_ws_front {p l : List Char} (hp : ∀ c ∈ p, pyWs c = true)
    (hl1 : '[' ∈ l) (hl2 : ']' ∈ l) : bracketSub (p ++ l) = bracketSub l := by
  have hpo : ∀ c ∈ p, (c == '[') = false := by
    intro c hc
    have hw := hp c hc
    by_cases h : c = '[' 
    · rw [h] at hw
      exact absurd hw (by decide)
    · simp [h]
  have hpc : ∀ c ∈ p.reverse, (c == ']') = false := by
    intro c hc
    have hw := hp c (List.mem_reverse.mp hc)
    by_cases h : c = ']' 
    · rw [h] at hw
      exact absurd hw (by decide)
    · simp [h]
  obtain ⟨s, hs⟩ := Option.isSome_iff_exists.mp
    (firstIdx_isSome_of_mem (p := fun c => c == '[') hl1 rfl)
  obtain ⟨rj, hrj⟩ := Option.isSome_iff_exists.mp
    (firstIdx_isSome_of_mem (p := fun c => c == ']') (List.mem_reverse.mpr hl2) rfl)
  have hrjlen : rj < l.reverse.length := firstIdx_lt_length hrj
  rw [List.length_reverse] at hrjlen
  unfold bracketSub
  rw [hs, hrj, firstIdx_append_of_none hpo l, hs, List.reverse_append,
    firstIdx_append_of_found hrj p.reverse]
  simp only [Option.map_some', List.length_append]
  have h1 : p.length + l.length - rj = p.length + (l.length - rj) := by omega
  have h3 : s + p.length = p.length + s := Nat.add_comm s p.length
  rw [h1, h3, List.take_append, List.drop_append]

theorem bracketSub_ws_suffix {q l : List Char} (hq : ∀ c ∈ q, pyWs c = true)
    (hl2 : ']' ∈ l) : bracketSub (l ++ q) = bracketSub l := by
  have hqc : ∀ c ∈ q.reverse, (c == ']') = false := by
    intro c hc
    have hw := hq c (List.mem_reverse.mp hc)
    by_cases h : c = ']' 
    · rw [h] at hw
      exact absurd hw (by decide)
    · simp [h]
  obtain ⟨rj, hrj⟩ := Option.isSome_iff_exists.mp
    (firstIdx_isSome_of_mem (p := fun c => c == ']') (List.mem_reverse.mpr hl2) rfl)
  have hrjlen : rj < l.reverse.length := firstIdx_lt_length hrj
  rw [List.length_reverse] at hrjlen
  unfold bracketSub
  rw [List.reverse_append, firstIdx_append_of_none hqc l.reverse, hrj]
  simp only [Option.map_some', List.length_append, List.length_reverse]
  cases hfo : firstIdx (fun c => c == '[') l with
  | none =>
    rw [firstIdx_append_of_none ((firstIdx_eq_none_iff _ l).mp hfo) q]
    cases hfq : firstIdx (fun c => c == '[') q with
    | none => rfl
    | some t =>
      simp only [Option.map_some']
      have h2 : l.length + q.length - (rj + q.length) = l.length - rj := by omega
      rw [h2, List.take_append_of_le_length (by omega)]
      rw [List.drop_eq_nil_of_le]
      rw [List.length_take]
      omega
  | some s =>
    rw [firstIdx_append_of_found hfo q]
    dsimp only
    have h2 : l.length + q.length - (rj + q.length) = l.length - rj := by omega
    rw [h2, List.take_append_of_le_length (by omega)]

theorem mem_pyStrip_iff {c : Char} (hc : pyWs c = false) (l : List Char) :
    c ∈ pyStrip l ↔ c ∈ l := by
  obtain ⟨p, q, hdec, hp, hq⟩ := pyStrip_decomp l
  constructor
  · intro h
    rw [hdec]
    simp [h]
  · intro h
    rw [hdec] at h
    rcases List.mem_append.mp h with h | h
    · rcases List.mem_append.mp h with h | h
      · rw [hp c h] at hc
        exact absurd hc (by simp)
      · exact h
    · rw [hq c h] at hc
      exact absurd hc (by simp)

theorem bracketSub_pyStrip {l : List Char} (h1 : '[' ∈ l) (h2 : ']' ∈ l) :
    bracketSub (pyStrip l) = bracketSub l := by
  obtain ⟨p, q, hdec, hp, hq⟩ := pyStrip_decomp l
  have h1s : '[' ∈ pyStrip l := (mem_pyStrip_iff (by decide) l).mpr h1
  have h2s : ']' ∈ pyStrip l := (mem_pyStrip_iff (by decide) l).mpr h2
  conv_rhs => rw [hdec, List.append_assoc]
  rw [bracketSub_ws_front hp (List.mem_append_left q h1s)
    (List.mem_append_left q h2s)]
  rw [bracketSub_ws_suffix hq h2s]

theorem extract_json_ok {t : String} (h1 : '[' ∈ t.toList) (h2 : ']' ∈ t.toList) :
    _extract_json t.toList = Except.ok (bracketSub t.toList) := by
  have h1s : '[' ∈ pyStrip t.toList := (mem_pyStrip_iff (by decide) _).mpr h1
  have h2s : ']' ∈ pyStrip t.toList := (mem_pyStrip_iff (by decide) _).mpr h2
  obtain ⟨s, hs⟩ := Option.isSome_iff_exists.mp
    (firstIdx_isSome_of_mem (p := fun c => c == '[') h1s rfl)
  obtain ⟨rj, hrj⟩ := Option.isSome_iff_exists.mp
    (firstIdx_isSome_of_mem (p := fun c => c == ']')
      (List.mem_reverse.mpr h2s) rfl)
  unfold _extract_json
  dsimp only
  rw [hs, hrj]
  rw [← bracketSub_pyStrip h1 h2]
  unfold bracketSub
  rw [hs, hrj]

theorem extract_json_fails {l : List Char} (h : '[' ∉ l ∨ ']' ∉ l) :
    _extract_json l = Except.error
      (ParseErr.structural "No JSON array found in response") := by
  unfold _extract_json
  dsimp only
  rcases h with h | h
  · have hnone : firstIdx (fun c => c == '[') (pyStrip l) = none := by
      rw [firstIdx_eq_none_iff]
      intro c hc
      by_cases hcb : c = '[' 
      · exact absurd ((mem_pyStrip_iff (by decide) l).mp (hcb ▸ hc)) (hcb ▸ h)
      · simp [hcb]
    rw [hnone]
  · have hnone : firstIdx (fun c => c == ']') (pyStrip l).reverse = none := by
      rw [firstIdx_eq_none_iff]
      intro c hc
      by_cases hcb : c = ']' 
      · exact absurd ((mem_pyStrip_iff (by decide) l).mp
          (List.mem_reverse.mp (hcb ▸ hc))) (hcb ▸ h)
      · simp [hcb]
    rw [hnone]
    cases firstIdx (fun c => c == '[') (pyStrip l) <;> rfl

theorem parse_transactions_structural_iff (t : String) :
    (∃ msg, parse_transactions t = Except.error (ParseErr.structural msg)) ↔
      ('[' ∉ t.toList ∨ ']' ∉ t.toList ∨
        decodedRecords? (String.mk (bracketSub t.toList)) = none) := by
  by_cases h1 : '[' ∈ t.toList
  · by_cases h2 : ']' ∈ t.toList
    · unfold parse_transactions
      rw [extract_json_ok h1 h2]
      dsimp only
      constructor
      · rintro ⟨msg, hmsg⟩
        refine Or.inr (Or.inr ?_)
        unfold decodedRecords?
        cases hj : jsonParse (String.mk (bracketSub t.toList)) with
        | none => rfl
        | some v =>
          rw [hj] at hmsg
          cases v with
          | arr items =>
            dsimp only at hmsg
            cases hc : convertAll 0 items with
            | error e =>
              cases e with
              | positional i => rw [hc] at hmsg; simp at hmsg
              | invalidOperation => rw [hc] at hmsg; simp at hmsg
            | ok ts => rw [hc] at hmsg; simp at hmsg
          | null => rfl
          | bool b => rfl
          | num n => rfl
          | str s => rfl
          | obj m => rfl
      · intro h
        rcases h with h | h | h
        · exact absurd h1 h
        · exact absurd h2 h
        · unfold decodedRecords? at h
          cases hj : jsonParse (String.mk (bracketSub t.toList)) with
          | none => exact ⟨"Invalid JSON response from LLM", rfl⟩
          | some v =>
            rw [hj] at h
            cases v with
            | arr items => simp at h
            | null => exact ⟨"Response must be a JSON array", rfl⟩
            | bool b => exact ⟨"Response must be a JSON array", rfl⟩
            | num n => exact ⟨"Response must be a JSON array", rfl⟩
            | str s => exact ⟨"Response must be a JSON array", rfl⟩
            | obj m => exact ⟨"Response must be a JSON array", rfl⟩
    · constructor
      · intro _
        exact Or.inr (Or.inl h2)
      · intro _
        exact ⟨"No JSON array found in response", by
          unfold parse_transactions
          rw [extract_json_fails (Or.inr h2)]⟩
  · constructor
    · intro _
      exact Or.inl h1
    · intro _
      exact ⟨"No JSON array found in response", by
        unfold parse_transactions
        rw [extract_json_fails (Or.inl h1)]⟩

/-- C5: `parse_transactions` treats the substring of the response text from
the first opening bracket to the last closing bracket, inclusive, as the
structured payload, ignoring any surrounding prose; it fails with a
structural error exactly when the text contains no opening bracket, no
closing bracket, or when decoding that substring does not yield a
well-formed sequence of records. -/
theorem C5_bracket_extraction_and_structural_errors (t : String) :
    ('[' ∈ t.toList → ']' ∈ t.toList →
      _extract_json t.toList = Except.ok (bracketSub t.toList)) ∧
    ((∃ msg, parse_transactions t = Except.error (ParseErr.structural msg)) ↔
      ('[' ∉ t.toList ∨ ']' ∉ t.toList ∨
        decodedRecords? (String.mk (bracketSub t.toList)) = none)) :=
  ⟨fun h1 h2 => extract_json_ok h1 h2, parse_transactions_structural_iff t⟩

set_option maxRecDepth 10000 in
/-- Witness for C5: on the prose-wrapped demo response the extractor
returns exactly the bracketed substring and the parser succeeds on it. -/
theorem C5_bracket_extraction_and_structural_errors_witness :
    _extract_json demoProseText.toList
        = Except.ok (bracketSub demoProseText.toList) ∧
    parse_transactions demoProseText = Except.ok [demoTxn, demoTxn2] :=
  ⟨(C5_bracket_extraction_and_structural_errors demoProseText).1
      (by decide) (by decide), by rfl⟩

/-- C7: `aggregate_transactions` partitions the records by (instrument,
kind): a group is in the output exactly when some input record carries its
key, and the group then equals the fold of `updAccum` (exact decimal
addition of quantity and amount, member count) over the records with that
key; on the three-record example it yields the two expected groups with
BUY before SELL. -/
theorem C7_grouping_sums_and_example :
    (∀ (l : List Transaction) (g : AggregatedTransaction),
      g ∈ aggregate_transactions l ↔
        (l.filter (fun t => txnKey t = aggKey g) ≠ [] ∧
          g = toAgg (aggKey g,
            (l.filter (fun t => txnKey t = aggKey g)).foldl updAccum emptyAccum))) ∧
    aggregate_transactions exampleThree = exampleThreeAggregated :=
  ⟨mem_aggregate_iff, by rfl⟩

/-- Witness for C7: the BUY group of the example, rebuilt from its filtered
records through the characterization. -/
theorem C7_grouping_sums_and_example_witness :
    (⟨"A", "P", ⟨3, 0⟩, ⟨30, 0⟩, "BUY", 2⟩ : AggregatedTransaction)
      ∈ aggregate_transactions exampleThree :=
  (C7_grouping_sums_and_example.1 exampleThree _).mpr ⟨by decide, by rfl⟩

theorem aggregate_sorted (l : List Transaction) :
    (aggregate_transactions l).Sorted aggKeyLt := by
  have hs : (aggregate_transactions l).Sorted aggLe :=
    List.sorted_insertionSort aggLe ((buildGroups l).map toAgg)
  have hk : ((aggregate_transactions l).map aggKey).Nodup :=
    (((List.perm_insertionSort aggLe _).map aggKey).nodup_iff).mpr
      (aggregate_keys_nodup l)
  exact sorted_keyLt_of_sorted_le hs hk

theorem kind_order_matches (a b : String) (ha : a ∈ validKinds)
    (hb : b ∈ validKinds) : strLtB a b = true ↔ kindRank a < kindRank b := by
  fin_cases ha <;> fin_cases hb <;> decide

/-- C6 (amended): on inputs whose records of one (instrument, kind) key all
carry the same product name, `aggregate_transactions` is invariant under
reordering of the input; its output is always strictly sorted by
(instrument ascending, kind ascending, `strLtB` on kind names agreeing
with BUY before DIVIDEND before SELL), and the empty input yields the
empty output.  The unamended order-independence fails: the product name
of a group is taken from the last record seen, see the counterexample. -/
theorem C6_aggregation_determinism_and_order :
    (∀ l₁ l₂ : List Transaction, l₁.Perm l₂ → pnCoherent l₁ →
      aggregate_transactions l₁ = aggregate_transactions l₂) ∧
    (∀ l : List Transaction, (aggregate_transactions l).Sorted aggKeyLt) ∧
    (∀ a b : String, a ∈ validKinds → b ∈ validKinds →
      (strLtB a b = true ↔ kindRank a < kindRank b)) ∧
    aggregate_transactions ([] : List Transaction) = [] :=
  ⟨fun _ _ h hwf => aggregate_transactions_eq_of_perm h hwf,
   aggregate_sorted, kind_order_matches, rfl⟩

/-- Counterexample to the unamended C6: two records of the same
(instrument, kind) key with different product names aggregate to different
outputs under the two supply orders, because the group keeps the name of
the record supplied last. -/
theorem C6_aggregation_determinism_and_order_counterexample :
    ([tPnX, tPnY].Perm [tPnY, tPnX]) ∧
    aggregate_transactions [tPnX, tPnY] ≠ aggregate_transactions [tPnY, tPnX] :=
  ⟨List.Perm.swap tPnY tPnX [], by decide⟩

/-- Witness for C6: a concrete coherent reordering gives equal outputs, and
the kind order bridge holds at BUY, DIVIDEND. -/
theorem C6_aggregation_determinism_and_order_witness :
    aggregate_transactions [demoTxn2, demoTxn]
        = aggregate_transactions [demoTxn, demoTxn2] ∧
    (strLtB "BUY" "DIVIDEND" = true ↔ kindRank "BUY" < kindRank "DIVIDEND") :=
  ⟨C6_aggregation_determinism_and_order.1 [demoTxn2, demoTxn] [demoTxn, demoTxn2]
      (List.Perm.swap demoTxn demoTxn2 []) (by unfold pnCoherent; decide),
   C6_aggregation_determinism_and_order.2.2.1 "BUY" "DIVIDEND"
      (by decide) (by decide)⟩

set_option maxRecDepth 10000 in
/-- C4: the first failing record does abort the whole batch, and an unknown
transaction kind at 1-based position 3 is reported as position 3; but a
non-decimal quantity string raises an error the conversion loop does not
catch (decimal.InvalidOperation is outside the caught tuple), so that
failing input aborts without any positional error, contradicting the
claim for the non-decimal-quantity failure mode it itself lists. -/
theorem C4_first_failure_positional_error :
    parse_transactions refundAtThreeText = Except.error (ParseErr.positional 3) ∧
    parse_transactions badQuantityText = Except.error ParseErr.invalidOperation ∧
    ∀ i, parse_transactions badQuantityText ≠ Except.error (ParseErr.positional i) :=
  ⟨by rfl, by rfl,
   fun i h => ParseErr.noConfusion (Except.error.inj h)⟩

/-- Witness for C4: the non-decimal-quantity input is not reported at
position 1, the position of its failing record. -/
theorem C4_first_failure_positional_error_witness :
    parse_transactions badQuantityText ≠ Except.error (ParseErr.positional 1) :=
  C4_first_failure_positional_error.2.2 1

theorem buildParseResponse_always_errors (txns : List Transaction) (total : Nat)
    (filename parsed_at : String) :
    buildParseResponse txns total filename parsed_at = Except.error
      "1 validation error for ParseResponse: pdf_filename Field required" := rfl

theorem parse_pdf_never_ok (env : Env) (table : List Item) (filename : String)
    (content : List Nat) (resp : ParseResponse) :
    (parse_pdf env table filename content).result ≠ Except.ok resp := by
  intro h
  unfold parse_pdf at h
  dsimp only at h
  cases hco : (ingestCore env table filename content).outcome with
  | error e => rw [hco] at h; simp at h
  | ok p =>
    rw [hco] at h
    dsimp only at h
    rw [buildParseResponse_always_errors] at h
    simp at h

set_option maxRecDepth 10000 in
/-- C1: the claim fails.  The pipeline does reach the point of terminal
success with the ordered transactions and the timestamp (third conjunct),
but the `ParseResponse` construction passes the filename under the keyword
`pdfFilename` while the declared field is `pdf_filename`, so construction
always raises a validation error (first conjunct), the endpoint never
returns a success response for any request (second conjunct), and the
demo request ends as a 500 carrying the validation message (fourth
conjunct). -/
theorem C1_terminal_success_response :
    (∀ (txns : List Transaction) (total : Nat) (fn pa : String),
      buildParseResponse txns total fn pa = Except.error
        "1 validation error for ParseResponse: pdf_filename Field required") ∧
    (∀ (env : Env) (table : List Item) (fn : String) (content : List Nat)
        (resp : ParseResponse),
      (parse_pdf env table fn content).result ≠ Except.ok resp) ∧
    (ingestCore demoEnv [] "statement.pdf" demoBytes).outcome
        = Except.ok ([demoTxn, demoTxn2], "T1") ∧
    (parse_pdf demoEnv [] "statement.pdf" demoBytes).result
        = Except.error ⟨500, "Error parsing PDF: 1 validation error for ParseResponse: pdf_filename Field required"⟩ :=
  ⟨buildParseResponse_always_errors, parse_pdf_never_ok, by rfl, by rfl⟩

/-- Witness for C1: the demo request does not return the success response
the claim promises. -/
theorem C1_terminal_success_response_witness :
    (parse_pdf demoEnv [] "statement.pdf" demoBytes).result
      ≠ Except.ok ⟨[demoTxn, demoTxn2], none, 2, "statement.pdf", "T1"⟩ :=
  C1_terminal_success_response.2.1 demoEnv [] "statement.pdf" demoBytes
    ⟨[demoTxn, demoTxn2], none, 2, "statement.pdf", "T1"⟩

theorem ingestCore_outcome_no_store_dependence (s : List Nat → String)
    (f : List Nat → Except String String) (now : String) (b₁ b₂ : Bool)
    (table : List Item) (fn : String) (content : List Nat) :
    (ingestCore ⟨s, f, now, b₁⟩ table fn content).outcome =
    (ingestCore ⟨s, f, now, b₂⟩ table fn content).outcome := by
  unfold ingestCore
  dsimp only
  split_ifs <;> try rfl
  all_goals
    cases f content with
    | error msg => rfl
    | ok text =>
      dsimp only
      cases parse_transactions text with
      | error e => rfl
      | ok txns =>
        dsimp only
        by_cases ht : txns = [] <;> simp [ht]

set_option maxRecDepth 10000 in
/-- C8: the storage failure itself is swallowed as claimed — the pipeline
outcome is independent of whether persistence raises (first conjunct), and
on the demo cache miss with an injected storage failure the validated
transactions and timestamp still form the outcome while the table stays
unwritten (second and third conjuncts) — but the already-validated
transactions are not "still returned to the caller": the response
construction bug fails every such request with a 500 (fourth conjunct). -/
theorem C8_storage_failure_swallowed :
    (∀ (s : List Nat → String) (f : List Nat → Except String String)
        (now : String) (b₁ b₂ : Bool) (table : List Item) (fn : String)
        (content : List Nat),
      (ingestCore ⟨s, f, now, b₁⟩ table fn content).outcome =
        (ingestCore ⟨s, f, now, b₂⟩ table fn content).outcome) ∧
    (ingestCore demoEnvStoreFail [] "statement.pdf" demoBytes).outcome
        = Except.ok ([demoTxn, demoTxn2], "T1") ∧
    (ingestCore demoEnvStoreFail [] "statement.pdf" demoBytes).table = [] ∧
    (parse_pdf demoEnvStoreFail [] "statement.pdf" demoBytes).result
        = Except.error ⟨500, "Error parsing PDF: 1 validation error for ParseResponse: pdf_filename Field required"⟩ :=
  ⟨ingestCore_outcome_no_store_dependence, by rfl, by rfl, by rfl⟩

theorem ingestCore_cache_hit (env : Env) (table : List Item) (fn : String)
    (content : List Nat)
    (hfn : ¬(fn = "" ∨ strEndsWith (strToLower fn) ".pdf" = false))
    (hlen : ¬ content.length < 100)
    (hex : check_pdf_exists table (env.sha content) = true) :
    (ingestCore env table fn content).llmCalled = false ∧
    (ingestCore env table fn content).table = table ∧
    (ingestCore env table fn content).outcome =
      (if get_transactions_for_pdf table (env.sha content) = [] then
        Except.error ⟨400, "No transactions found in PDF"⟩
       else Except.ok (get_transactions_for_pdf table (env.sha content),
         match get_pdf_metadata table (env.sha content) with
         | some m => m.parsedAt
         | none => env.now)) := by
  unfold ingestCore
  dsimp only
  rw [if_neg hfn, if_neg hlen, if_pos hex]
  by_cases ht : get_transactions_for_pdf table (env.sha content) = [] <;>
    simp [ht]

set_option maxRecDepth 10000 in
/-- C9: on a dedup-gate hit the pipeline never invokes the extraction
collaborator: the LLM is not called, the table is untouched, and the
outcome is built from the stored transactions with the timestamp taken
from the metadata record (falling back to the clock only when the
metadata is absent); on the demo second request the stored transactions
and the original parse time T1 are produced with a failing extractor and
a later clock T2 — but the claimed terminal success never materialises:
the response construction bug turns it into a 500. -/
theorem C9_cache_hit_skips_extraction :
    (∀ (env : Env) (table : List Item) (fn : String) (content : List Nat),
      ¬(fn = "" ∨ strEndsWith (strToLower fn) ".pdf" = false) →
      ¬ content.length < 100 →
      check_pdf_exists table (env.sha content) = true →
      (ingestCore env table fn content).llmCalled = false ∧
      (ingestCore env table fn content).table = table ∧
      (ingestCore env table fn content).outcome =
        (if get_transactions_for_pdf table (env.sha content) = [] then
          Except.error ⟨400, "No transactions found in PDF"⟩
        else Except.ok (get_transactions_for_pdf table (env.sha content),
          match get_pdf_metadata table (env.sha content) with
          | some m => m.parsedAt
          | none => env.now))) ∧
    (ingestCore demoEnvHit demoTable "statement.pdf" demoBytes).llmCalled = false ∧
    (ingestCore demoEnvHit demoTable "statement.pdf" demoBytes).outcome
        = Except.ok ([demoTxn, demoTxn2], "T1") ∧
    (parse_pdf demoEnvHit demoTable "statement.pdf" demoBytes).result
        = Except.error ⟨500, "Error parsing PDF: 1 validation error for ParseResponse: pdf_filename Field required"⟩ :=
  ⟨ingestCore_cache_hit, by rfl, by rfl, by rfl⟩

set_option maxRecDepth 10000 in
/-- Witness for C9: the cache-hit lemma applied to the demo second
request. -/
theorem C9_cache_hit_skips_extraction_witness :
    (ingestCore demoEnvHit demoTable "statement.pdf" demoBytes).llmCalled = false :=
  (C9_cache_hit_skips_extraction.1 demoEnvHit demoTable "statement.pdf" demoBytes
    (by decide) (by decide) (by rfl)).1

theorem parse_pdf_of_core_error {env : Env} {table : List Item} {fn : String}
    {content : List Nat} {e : HttpError}
    (h : (ingestCore env table fn content).outcome = Except.error e) :
    (parse_pdf env table fn content).result = Except.error e ∧
    (parse_pdf env table fn content).table
        = (ingestCore env table fn content).table ∧
    (parse_pdf env table fn content).llmCalled
        = (ingestCore env table fn content).llmCalled := by
  unfold parse_pdf
  dsimp only
  rw [h]
  exact ⟨rfl, rfl, rfl⟩

set_option maxRecDepth 10000 in
/-- C10: when a cache-miss extraction yields no transactions, the metadata
record (transaction count 0) is persisted with no transaction records
before the request is rejected with the 400 client error (second and third
conjuncts: the demo table holds exactly the one metadata item); and every
subsequent ingestion whose fingerprint is present with zero stored
transactions takes the cache-hit path: same 400 error, table unchanged,
extraction not invoked (first conjunct generally, last three on the demo
table with a failing extractor). -/
theorem C10_empty_extraction_negative_cache :
    (∀ (env : Env) (table : List Item) (fn : String) (content : List Nat),
      ¬(fn = "" ∨ strEndsWith (strToLower fn) ".pdf" = false) →
      ¬ content.length < 100 →
      check_pdf_exists table (env.sha content) = true →
      get_transactions_for_pdf table (env.sha content) = [] →
      (parse_pdf env table fn content).result
          = Except.error ⟨400, "No transactions found in PDF"⟩ ∧
      (parse_pdf env table fn content).table = table ∧
      (parse_pdf env table fn content).llmCalled = false) ∧
    (parse_pdf demoEnvEmpty [] "statement.pdf" demoBytes).result
        = Except.error ⟨400, "No transactions found in PDF"⟩ ∧
    demoEmptyTable
        = [Item.pdf (pdfRecordOf "HASH" "statement.pdf" 100 0 "T1" "T1")] ∧
    (parse_pdf demoEnvHit demoEmptyTable "statement.pdf" demoBytes).result
        = Except.error ⟨400, "No transactions found in PDF"⟩ ∧
    (parse_pdf demoEnvHit demoEmptyTable "statement.pdf" demoBytes).table
        = demoEmptyTable ∧
    (parse_pdf demoEnvHit demoEmptyTable "statement.pdf" demoBytes).llmCalled
        = false := by
  refine ⟨?_, by rfl, by rfl, by rfl, by rfl, by rfl⟩
  intro env table fn content hfn hlen hex hget
  obtain ⟨hl, htb, ho⟩ := ingestCore_cache_hit env table fn content hfn hlen hex
  rw [hget] at ho
  simp only [if_pos rfl] at ho
  obtain ⟨h1, h2, h3⟩ := parse_pdf_of_core_error ho
  exact ⟨h1, h2.trans htb, h3.trans hl⟩

set_option maxRecDepth 10000 in
/-- Witness for C10: the general repeat-ingestion conjunct applied to the
demo empty-result table. -/
theorem C10_empty_extraction_negative_cache_witness :
    (parse_pdf demoEnvHit demoEmptyTable "statement.pdf" demoBytes).result
        = Except.error ⟨400, "No transactions found in PDF"⟩ :=
  (C10_empty_extraction_negative_cache.1 demoEnvHit demoEmptyTable "statement.pdf" demoBytes
    (by decide) (by decide) (by rfl) (by rfl)).1

theorem txnOfRecord_txnRecordOf (h : String) (idx : Nat) (t : Transaction)
    (pa : String) (hk : t.transaction_type ∈ validKinds) :
    txnOfRecord (txnRecordOf h idx t pa) = some t := by
  unfold txnOfRecord txnRecordOf
  dsimp only
  rw [decOfString_decToString, decOfString_decToString]
  dsimp only
  rw [if_pos hk]

set_option maxRecDepth 10000 in
/-- C3: the storage round trip is exact — `Decimal(str(d))` recovers every
decimal, a stored record converts back to the original transaction, and
the documented quantity and amount serialise as 0.085178 and 50.00 — and
the second byte-identical request is a cache hit whose pipeline outcome
equals the first call's (same transactions, original timestamp, no LLM
call).  But the claimed equality of what the two calls return to the
caller is vacuous: the response construction bug turns every such call
into a 500, so the second call returns no transactions at all (last
conjunct). -/
theorem C3_idempotent_cache_and_precision :
    (∀ d : Dec, decOfString (decToString d) = some d) ∧
    (∀ (h : String) (idx : Nat) (t : Transaction) (pa : String),
      t.transaction_type ∈ validKinds →
      txnOfRecord (txnRecordOf h idx t pa) = some t) ∧
    decToString (⟨85178, -6⟩ : Dec) = "0.085178" ∧
    decToString (⟨5000, -2⟩ : Dec) = "50.00" ∧
    (ingestCore demoEnvHit demoTable "statement.pdf" demoBytes).llmCalled
        = false ∧
    (ingestCore demoEnvHit demoTable "statement.pdf" demoBytes).outcome
        = (ingestCore demoEnv [] "statement.pdf" demoBytes).outcome ∧
    (ingestCore demoEnv [] "statement.pdf" demoBytes).outcome
        = Except.ok ([demoTxn, demoTxn2], "T1") ∧
    (parse_pdf demoEnvHit demoTable "statement.pdf" demoBytes).result
        = Except.error ⟨500, "Error parsing PDF: 1 validation error for ParseResponse: pdf_filename Field required"⟩ :=
  ⟨decOfString_decToString, txnOfRecord_txnRecordOf, by rfl, by rfl, by rfl,
   by rfl, by rfl, by rfl⟩

/-- Witness for C3: the record-level round trip applied to the demo
transaction. -/
theorem C3_idempotent_cache_and_precision_witness :
    txnOfRecord (txnRecordOf "HASH" 0 demoTxn "T1") = some demoTxn :=
  C3_idempotent_cache_and_precision.2.1 "HASH" 0 demoTxn "T1" (by decide)

/-- C2 (amended): a write failure that interrupts the store before its
first batch flush leaves the table, and so the dedup gate, unchanged — a
fresh document can be safely retried; the metadata record is queued ahead
of every transaction record, so it travels in the first 25-item flush.
The unamended all-or-nothing claim fails for documents needing more than
one flush, see the counterexample. -/
theorem C2_interrupted_write_gate :
    (∀ (table : List Item) (h fn : String) (size : Nat)
        (txns : List Transaction) (pa ca : String),
      store_pdf_interrupted table h fn size txns pa ca 0 = table) ∧
    (∀ (table : List Item) (h fn : String) (size : Nat)
        (txns : List Transaction) (pa ca : String),
      check_pdf_exists table h = false →
      check_pdf_exists (store_pdf_interrupted table h fn size txns pa ca 0) h
          = false) ∧
    (∀ (h fn : String) (size : Nat) (txns : List Transaction) (pa ca : String),
      storeItems h fn size txns pa ca
        = Item.pdf (pdfRecordOf h fn size txns.length pa ca) ::
            txns.enum.map (fun p => Item.txn (txnRecordOf h p.1 p.2 pa))) := by
  refine ⟨?_, ?_, fun h fn size txns pa ca => rfl⟩
  · intro table h fn size txns pa ca
    unfold store_pdf_interrupted
    rw [List.take_zero]
    rfl
  · intro table h fn size txns pa ca hc
    unfold store_pdf_interrupted
    rw [List.take_zero]
    exact hc

/-- Counterexample to the unamended C2: a 25-transaction document flushes
in two batches; a failure at the second flush leaves the dedup gate true
while transaction 24 is unpersisted and a reader retrieves only 24 of the
25 transactions — a half-written document is observable and the gate
blocks the retry. -/
theorem C2_interrupted_write_gate_counterexample :
    check_pdf_exists
        (store_pdf_interrupted [] "H" "f.pdf" 100 txns25 "T" "T" 1) "H" = true ∧
    getItem (store_pdf_interrupted [] "H" "f.pdf" 100 txns25 "T" "T" 1)
        ("PDF#H", "TXN#0024") = none ∧
    (getItem (store_pdf_with_transactions [] "H" "f.pdf" 100 txns25 "T" "T")
        ("PDF#H", "TXN#0024")).isSome = true ∧
    (get_transactions_for_pdf
        (store_pdf_interrupted [] "H" "f.pdf" 100 txns25 "T" "T" 1) "H").length
      = 24 := by
  refine ⟨by decide, by decide, by decide, by decide⟩

/-- Witness for C2: a first-flush failure on a fresh table keeps the gate
closed. -/
theorem C2_interrupted_write_gate_witness :
    check_pdf_exists
        (store_pdf_interrupted [] "H" "f.pdf" 100 txns25 "T" "T" 0) "H"
      = false :=
  C2_interrupted_write_gate.2.1 [] "H" "f.pdf" 100 txns25 "T" "T" (by rfl)
